import Mathlib

/-!
Verification of the rkojob scheduling core (src/rkojob/runner.py, context.py,
values.py, __init__.py) against its specification.

The embedding translates the Python sources into executable Lean definitions:

* `JobScopeStatus` mirrors the `JobScopeStatus` enum (`__init__.py`).
* `Scope` is a rose tree of `ScopeData`; the capability flags mirror the
  runtime `isinstance` probes for `JobGroupScope` / `JobActionScope` /
  `JobTeardownScope` / `JobConditionalScope` (duck-typed protocols).  A scope
  that lacks the group capability has no `scopes` attribute in Python, which
  is expressed by the well-formedness predicate `wfLeaves` (children list
  empty for non-groups).
* Actions and teardown callables are modelled by `CallSpec`: invoking them
  either returns normally (`ok`) or raises an exception with a message
  (`fail msg`), the only behaviours the runner can observe.
* `RunState` merges the mutable state of `JobContextImpl` and its
  `JobScopeStatuses` listener (context.py); `trace` records the status
  events the collector fans out (start/finish/skip scope, sections,
  action/teardown invocations, errors, warnings, details) in order.
* The runner functions mirror `JobRunnerImpl` (runner.py): `runScope` is
  `_run_scope` (with `_run_group`/`_run_action` inlined at their single call
  sites), `runScopes` is `_run_group`'s loop, `runTeardownOp` is
  `_run_teardown`, `runGroupTeardownList`/`runGroupTeardownChild` are
  `_run_group_teardown` (the list function processes the tail first, which
  realises Python's `for child in reversed(group.scopes)`), `shouldSkip` is
  `_should_skip`, `resolveConditional` is `_resolve_conditional`, and
  `runJob` is `JobRunnerImpl.run`.  Exceptions are modelled by an
  `Option String` result (the raised message); `try/finally` and the
  `with` context managers are expanded exactly as Python executes them.
-/

namespace Rkojob

/-- `JobScopeStatus` enum from `rkojob/__init__.py`. -/
inductive JobScopeStatus where
  | passed
  | failed
  | running
  | failing
  | skipped
  | unknown
  deriving DecidableEq, Repr

/-- Behaviour of an action or teardown callable when invoked with the context:
either it returns normally or it raises an exception carrying `msg`. -/
inductive CallSpec where
  | ok
  | fail (msg : String)
  deriving DecidableEq, Repr

/-- Values a `run_if` / `skip_if` conditional can resolve to
(`JobConditionalType`): a plain bool literal, a `(bool, reason)` pair
(e.g. held in a `ValueRef`), or one of the built-in `_JobScopeCondition`
singletons from `rkojob/__init__.py`. -/
inductive Cond where
  | boolLit (b : Bool)
  | pairLit (b : Bool) (reason : String)
  | jobAlways
  | jobNever
  | jobFailing
  | jobSucceeding
  deriving DecidableEq, Repr

/-- Per-scope data: identity, display fields, capability flags and the
capability payloads.  `hasAction`/`hasTeardown`/`isConditional` record
whether the Python object exposes the attribute at all (the protocol
`isinstance` checks); `action`/`teardown` are `none` when the attribute is
present but `None`/empty (falsy). -/
structure ScopeData where
  sid : Nat
  name : String
  stype : String
  isGroup : Bool
  hasAction : Bool
  action : Option CallSpec
  hasTeardown : Bool
  teardown : Option CallSpec
  isConditional : Bool
  runIf : Option Cond
  skipIf : Option Cond
  deriving DecidableEq, Repr

/-- A scope tree.  Non-group scopes carry an empty child list (`wfLeaves`). -/
inductive Scope where
  | node : ScopeData → List Scope → Scope
  deriving Repr

/-- Status events the `JobStatusCollector` fans out during a run, plus the
action/teardown invocations themselves (observable side effects of the
callables, as exercised by the repository's own runner tests).
`sectionStart o t` corresponds to `start_section` with the label
`"Teardown {owner.type} {owner.name} ({td.type} {td.name})"`, and
`detailSkipTeardown o t` to the `detail` message
`"Skipping Teardown {owner.type} {owner.name} ({td.type} {td.name})"`. -/
inductive Event where
  | startScope (sid : Nat)
  | finishScope (sid : Nat)
  | skipScope (sid : Nat) (reason : Option String)
  | actionCall (sid : Nat)
  | errorRec (msg : String)
  | sectionStart (ownerId tdId : Nat)
  | sectionFinish
  | teardownCall (ownerId tdId : Nat)
  | warningMsg (msg : String)
  | detailSkipTeardown (ownerId tdId : Nat)
  deriving DecidableEq, Repr

/-- The run's mutable state: `ctxStack` is `JobContextImpl._state_stack`,
`stStack` is `JobScopeStatuses._scope_stack`, `statuses` is
`JobScopeStatuses._statuses` (later writes shadow earlier ones),
`errors` is `JobScopeStatuses._errors` (scope-path keyed, insertion order
preserved as in a Python dict), and `trace` records collector events. -/
structure RunState where
  ctxStack : List Nat
  stStack : List Nat
  statuses : List (Nat × JobScopeStatus)
  errors : List (List Nat × List String)
  trace : List Event
  deriving DecidableEq, Repr

/-- Status lookup in a raw statuses map (first, i.e. most recent, binding
wins; default `UNKNOWN` as in `JobScopeStatuses.get_status`). -/
def getStatusOf (sts : List (Nat × JobScopeStatus)) (sid : Nat) : JobScopeStatus :=
  match sts.find? (fun p => p.1 = sid) with
  | some p => p.2
  | none => .unknown

/-- `JobScopeStatuses.get_status`. -/
def getStatus (st : RunState) (sid : Nat) : JobScopeStatus :=
  getStatusOf st.statuses sid

/-- `self._statuses[scope] = status`. -/
def setStatus (st : RunState) (sid : Nat) (s : JobScopeStatus) : RunState :=
  { st with statuses := (sid, s) :: st.statuses }

/-- Append one collector event to the trace. -/
def addEvent (st : RunState) (e : Event) : RunState :=
  { st with trace := st.trace ++ [e] }

/-- Does the error-map key (a scope path) match the query scope?
(`scope is None or scope in scopes` in `get_errors`). -/
def errKeyMatches (sel : Option Nat) (key : List Nat) : Bool :=
  match sel with
  | none => true
  | some s => key.contains s

/-- `JobScopeStatuses.get_errors`: concatenate, in insertion order, the error
lists of every path containing the queried scope (or all paths). -/
def getErrorsFor (st : RunState) (sel : Option Nat) : List String :=
  st.errors.foldl (fun acc p => if errKeyMatches sel p.1 then acc ++ p.2 else acc) []

/-- Append `msg` to the error list of path `key`, creating the entry at the
end when absent (Python dict insertion order). -/
def addErrorToMap (errors : List (List Nat × List String)) (key : List Nat) (msg : String) :
    List (List Nat × List String) :=
  if errors.any (fun p => p.1 = key) then
    errors.map (fun p => if p.1 = key then (p.1, p.2 ++ [msg]) else p)
  else
    errors ++ [(key, [msg])]

/-- `JobScopeStatuses.error`: record the error under the current scope path
and mark the innermost running scope FAILING (plus the collector event). -/
def recordError (st : RunState) (msg : String) : RunState :=
  let key := st.stStack
  let st1 : RunState :=
    { st with errors := addErrorToMap st.errors key msg, trace := st.trace ++ [.errorRec msg] }
  match key.getLast? with
  | some sid => setStatus st1 sid .failing
  | none => st1

/-- `JobScopeStatuses.skip_scope` plus the collector's `skip_scope` event. -/
def skipScopeOp (st : RunState) (sid : Nat) (reason : Option String) : RunState :=
  addEvent (setStatus st sid .skipped) (.skipScope sid reason)

/-- `JobScopeStatuses.start_scope`: fatal if the status was already set,
otherwise push the scope and mark it RUNNING. -/
def startScopeOp (st : RunState) (sid : Nat) : RunState × Option String :=
  if getStatus st sid ≠ .unknown then
    (st, some "Scope status already set.")
  else
    (addEvent { setStatus st sid .running with stStack := st.stStack ++ [sid] } (.startScope sid),
      none)

/-- The status `finish_scope` records: FAILED when the scope has recorded
errors, PASSED otherwise. -/
def finishStatus (st : RunState) (sid : Nat) : JobScopeStatus :=
  if getErrorsFor st (some sid) ≠ [] then .failed else .passed

/-- `JobScopeStatuses.finish_scope`: pop the scope (fatal on mismatch or
empty stack) and record PASSED/FAILED according to its recorded errors. -/
def finishScopeOp (st : RunState) (sid : Nat) : RunState × Option String :=
  match st.stStack.getLast? with
  | none => (st, some "Scope does not match scope on stack.")
  | some top =>
    if top ≠ sid then (st, some "Scope does not match scope on stack.")
    else
      (addEvent { setStatus st sid (finishStatus st sid) with stStack := st.stStack.dropLast }
        (.finishScope sid), none)

/-- `JobContextImpl._enter_scope`. -/
def enterCtx (st : RunState) (sid : Nat) : RunState :=
  { st with ctxStack := st.ctxStack ++ [sid] }

/-- `JobContextImpl._exit_scope`: pop and check the popped scope matches. -/
def exitCtx (st : RunState) (sid : Nat) : RunState × Option String :=
  match st.ctxStack.getLast? with
  | none => (st, some "Unexpected scope found on stack!")
  | some top =>
    ({ st with ctxStack := st.ctxStack.dropLast },
      if top ≠ sid then some "Unexpected scope found on stack!" else none)

/-- First raised exception wins unless a later `finally` raises (the later
one replaces the in-flight exception, as in Python). -/
def laterErr (later earlier : Option String) : Option String :=
  match later with
  | some m => some m
  | none => earlier

/-- The state after a successful scope entry (`in_scope` push followed by
`start_scope` on a scope whose status was UNKNOWN). -/
def enteredState (st : RunState) (sid : Nat) : RunState :=
  { st with ctxStack := st.ctxStack ++ [sid],
            stStack := st.stStack ++ [sid],
            statuses := (sid, JobScopeStatus.running) :: st.statuses,
            trace := st.trace ++ [Event.startScope sid] }

/-- `JobRunnerImpl._resolve_conditional`: resolve the conditional's value;
a `(bool, reason)` tuple is returned as-is, anything else is normalised to
`(bool(value), "")`.  The built-in `_JobScopeCondition` singletons resolve
to their boolean against the recorded errors, paired with their reason. -/
def resolveConditional (st : RunState) (c : Cond) : Bool × String :=
  match c with
  | .boolLit b => (b, "")
  | .pairLit b r => (b, r)
  | .jobAlways => (true, "Always")
  | .jobNever => (false, "Never")
  | .jobFailing => (!(getErrorsFor st none).isEmpty, "Job has failures.")
  | .jobSucceeding => ((getErrorsFor st none).isEmpty, "Job is succeeding.")

/-- `JobRunnerImpl._should_skip`. -/
def shouldSkip (st : RunState) (d : ScopeData) : Bool × String :=
  if d.isConditional then
    match d.runIf, d.skipIf with
    | none, none => resolveConditional st .jobFailing
    | none, some sk => resolveConditional st sk
    | some r, none =>
      let rr := resolveConditional st r
      (!rr.1, rr.2)
    | some r, some sk =>
      let rr := resolveConditional st r
      if !rr.1 then (true, rr.2) else resolveConditional st sk
  else
    resolveConditional st .jobNever

/-- `JobRunnerImpl._run_teardown`: skip (with a detail message) when the
scope never ran or was skipped; otherwise invoke the teardown callable in a
section, downgrading any exception to a warning. -/
def runTeardownOp (st : RunState) (owner td : ScopeData) : RunState :=
  if getStatus st td.sid = .unknown ∨ getStatus st td.sid = .skipped then
    addEvent st (.detailSkipTeardown owner.sid td.sid)
  else
    match td.teardown with
    | none => st
    | some spec =>
      let st1 := addEvent (addEvent st (.sectionStart owner.sid td.sid))
        (.teardownCall owner.sid td.sid)
      let st2 := match spec with
        | .ok => st1
        | .fail m => addEvent st1 (.warningMsg m)
      addEvent st2 .sectionFinish

mutual

/-- `JobRunnerImpl._run_group_teardown` applied to one child of the walked
children list: recurse into child groups (keeping the original
`scope_to_teardown` owner), tear down teardown-capable children, skip the
rest. -/
def runGroupTeardownChild (st : RunState) (owner : ScopeData) : Scope → RunState
  | .node cd ccs =>
    if cd.isGroup then runGroupTeardownList st owner ccs
    else if cd.hasTeardown then runTeardownOp st owner cd
    else st

/-- `JobRunnerImpl._run_group_teardown`'s `for child in reversed(scopes)`
loop: the tail (later declarations) is processed before the head. -/
def runGroupTeardownList (st : RunState) (owner : ScopeData) : List Scope → RunState
  | [] => st
  | c :: rest => runGroupTeardownChild (runGroupTeardownList st owner rest) owner c

end

/-- `JobRunnerImpl._run_action`: invoke the action if present; an exception
is recorded via `context.status.error` and not re-raised. -/
def actionBody (st : RunState) (d : ScopeData) : RunState :=
  match d.action with
  | some spec =>
    let stA := addEvent st (.actionCall d.sid)
    match spec with
    | .ok => stA
    | .fail m => recordError stA m
  | none => st

/-- The `finally` block of `_run_scope`: group teardown for groups, else
the scope's own teardown if it has the capability.  Never raises. -/
def teardownPhase (st : RunState) (d : ScopeData) (cs : List Scope) : RunState :=
  if d.isGroup then runGroupTeardownList st d cs
  else if d.hasTeardown then runTeardownOp st d d
  else st

/-- Exiting the two `with` blocks of `_run_scope` after the body raised
`eBody` (or `none`): `status.scope`'s `finally` calls `finish_scope`, then
`in_scope`'s `finally` pops the context stack; an exception raised by a
`finally` replaces the in-flight one. -/
def finishExit (st5 : RunState) (d : ScopeData) (eBody : Option String) :
    RunState × Option String :=
  let fin := finishScopeOp st5 d.sid
  let ex := exitCtx fin.1 d.sid
  (ex.1, laterErr ex.2 (laterErr fin.2 eBody))

/-- The path taken when `start_scope` itself raises inside
`context.status.scope`'s generator: the exception is recorded via
`self.error(e)`, the `finally` still runs `finish_scope` (whose own
mismatch exception replaces `e`), and `in_scope` still pops. -/
def startErrorExit (st2 : RunState) (d : ScopeData) (e : String) :
    RunState × Option String :=
  let st3 := recordError st2 e
  let fin := finishScopeOp st3 d.sid
  let ex := exitCtx fin.1 d.sid
  (ex.1, laterErr ex.2 (laterErr fin.2 (some e)))

mutual

/-- `JobRunnerImpl._run_scope`.  The `with context.in_scope(scope),
context.status.scope(scope)` pair and the inner `try/finally` are expanded
exactly as Python executes them: push the context stack, `start_scope`,
run the body (children in order for a group, else the action), always run
the teardown phase, record any in-flight body exception
(`status.scope`'s `except` clause), `finish_scope`, pop the context
stack. -/
def runScope (st : RunState) : Scope → RunState × Option String
  | .node d cs =>
    if !d.isGroup && !d.hasAction && !d.hasTeardown then
      (st, some ("Unknown scope type: " ++ d.stype))
    else
      let sk := shouldSkip st d
      if sk.1 then
        (skipScopeOp st d.sid (if sk.2 = "" then none else some sk.2), none)
      else
        match startScopeOp (enterCtx st d.sid) d.sid with
        | (st2, some e) => startErrorExit st2 d e
        | (st2, none) =>
          let body : RunState × Option String :=
            if d.isGroup then runScopes st2 cs
            else if d.hasAction then (actionBody st2 d, none)
            else (st2, none)
          let st4 := teardownPhase body.1 d cs
          let st5 := match body.2 with
            | some m => recordError st4 m
            | none => st4
          finishExit st5 d body.2

/-- `JobRunnerImpl._run_group`: run the children in declaration order; an
exception raised by a child (a structural error) aborts the loop and
propagates. -/
def runScopes (st : RunState) : List Scope → RunState × Option String
  | [] => (st, none)
  | c :: cs =>
    match runScope st c with
    | (st', none) => runScopes st' cs
    | (st', some e) => (st', some e)

end

/-- `JobRunnerImpl.run`: run the root scope, then raise one aggregate
`JobException` joining the string forms of all recorded errors, if any. -/
def runJob (st : RunState) (s : Scope) : RunState × Option String :=
  match runScope st s with
  | (st', some e) => (st', some e)
  | (st', none) =>
    let errs := getErrorsFor st' none
    if errs.isEmpty then (st', none)
    else (st', some (String.intercalate "\n" errs))

/-- The state `JobContextFactory.create()` hands to a fresh run. -/
def initState : RunState := ⟨[], [], [], [], []⟩

/-! ### Static views of a scope tree (used to state the theorems) -/

mutual

/-- All scope ids in the tree, preorder. -/
def scopeIds : Scope → List Nat
  | .node d cs => d.sid :: scopeIdsList cs

def scopeIdsList : List Scope → List Nat
  | [] => []
  | c :: cs => scopeIds c ++ scopeIdsList cs

end

mutual

/-- Every scope implements at least one of Group/Action/Teardown
(the runner's `_unknown_scope` check never fires). -/
def allCap : Scope → Bool
  | .node d cs => (d.isGroup || d.hasAction || d.hasTeardown) && allCapList cs

def allCapList : List Scope → Bool
  | [] => true
  | c :: cs => allCap c && allCapList cs

end

mutual

/-- No scope in the tree has the conditional capability (no
`run_if`/`skip_if` attributes at all). -/
def noCond : Scope → Bool
  | .node d cs => !d.isConditional && noCondList cs

def noCondList : List Scope → Bool
  | [] => true
  | c :: cs => noCond c && noCondList cs

end

mutual

/-- Non-group scopes carry no children (in Python they have no `scopes`
attribute, so the encoding's child list is empty). -/
def wfLeaves : Scope → Bool
  | .node d cs => (d.isGroup || cs.isEmpty) && wfLeavesList cs

def wfLeavesList : List Scope → Bool
  | [] => true
  | c :: cs => wfLeaves c && wfLeavesList cs

end

mutual

/-- All subtrees (the tree itself and, recursively, its children). -/
def subscopes : Scope → List Scope
  | .node d cs => .node d cs :: subscopesList cs

def subscopesList : List Scope → List Scope
  | [] => []
  | c :: cs => subscopes c ++ subscopesList cs

end

mutual

/-- Ids of the scopes whose action the runner invokes: non-group scopes
with the action capability and a non-`None` action, recursively through
groups. -/
def actionIds : Scope → List Nat
  | .node d cs =>
    if d.isGroup then actionIdsList cs
    else if d.hasAction then
      match d.action with
      | some _ => [d.sid]
      | none => []
    else []

def actionIdsList : List Scope → List Nat
  | [] => []
  | c :: cs => actionIds c ++ actionIdsList cs

end

mutual

/-- Ids of the teardown callables a `_run_group_teardown` walk over these
children invokes, in walk order (reverse declaration order, depth-first). -/
def walkTdIds : List Scope → List Nat
  | [] => []
  | c :: rest => walkTdIds rest ++ walkTdChild c

def walkTdChild : Scope → List Nat
  | .node cd ccs =>
    if cd.isGroup then walkTdIds ccs
    else if cd.hasTeardown then
      match cd.teardown with
      | some _ => [cd.sid]
      | none => []
    else []

end

/-- Events `_run_teardown` emits for a teardown that ran (guard passed). -/
def tdOpTrace (owner td : ScopeData) : List Event :=
  match td.teardown with
  | none => []
  | some .ok =>
    [.sectionStart owner.sid td.sid, .teardownCall owner.sid td.sid, .sectionFinish]
  | some (.fail m) =>
    [.sectionStart owner.sid td.sid, .teardownCall owner.sid td.sid, .warningMsg m,
      .sectionFinish]

/-- Events `_run_teardown` emits given the recorded statuses (the
UNKNOWN/SKIPPED guard decides between a detail message and the teardown). -/
def tdOpTraceSt (sts : List (Nat × JobScopeStatus)) (owner td : ScopeData) : List Event :=
  if getStatusOf sts td.sid = .unknown ∨ getStatusOf sts td.sid = .skipped then
    [.detailSkipTeardown owner.sid td.sid]
  else tdOpTrace owner td

mutual

/-- Events a `_run_group_teardown` walk emits given the recorded statuses. -/
def walkTraceStList (sts : List (Nat × JobScopeStatus)) (owner : ScopeData) :
    List Scope → List Event
  | [] => []
  | c :: rest => walkTraceStList sts owner rest ++ walkTraceStChild sts owner c

def walkTraceStChild (sts : List (Nat × JobScopeStatus)) (owner : ScopeData) :
    Scope → List Event
  | .node cd ccs =>
    if cd.isGroup then walkTraceStList sts owner ccs
    else if cd.hasTeardown then tdOpTraceSt sts owner cd
    else []

end

mutual

/-- Events a `_run_group_teardown` walk emits when every visited scope ran
(no descendant UNKNOWN or SKIPPED). -/
def walkTraceList (owner : ScopeData) : List Scope → List Event
  | [] => []
  | c :: rest => walkTraceList owner rest ++ walkTraceChild owner c

def walkTraceChild (owner : ScopeData) : Scope → List Event
  | .node cd ccs =>
    if cd.isGroup then walkTraceList owner ccs
    else if cd.hasTeardown then tdOpTrace owner cd
    else []

end

/-- Events appended by the teardown phase of `_run_scope`, as a function of
the statuses at phase time. -/
def phaseTraceSt (sts : List (Nat × JobScopeStatus)) (d : ScopeData) (cs : List Scope) :
    List Event :=
  if d.isGroup then walkTraceStList sts d cs
  else if d.hasTeardown then tdOpTraceSt sts d d
  else []

/-- Events `_run_action` emits (the invocation, plus the recorded error if
the action raises). -/
def actTrace (d : ScopeData) : List Event :=
  if d.hasAction then
    match d.action with
    | some .ok => [.actionCall d.sid]
    | some (.fail m) => [.actionCall d.sid, .errorRec m]
    | none => []
  else []

mutual

/-- The full event trace of running a tree that has no conditional scopes
(nothing is skipped): enter, body (children or action), teardown phase,
exit — for every node. -/
def scopeTrace : Scope → List Event
  | .node d cs =>
    .startScope d.sid ::
      ((if d.isGroup then scopeTraceList cs else actTrace d) ++
        (if d.isGroup then walkTraceList d cs
          else if d.hasTeardown then tdOpTrace d d
          else []) ++
        [.finishScope d.sid])

def scopeTraceList : List Scope → List Event
  | [] => []
  | c :: cs => scopeTrace c ++ scopeTraceList cs

end

mutual

/-- The `(owner, teardown)` pairs of all teardown invocations a full run of
a condition-free tree performs: a non-group teardown-capable scope tears
itself down on exit, and every group walks its descendants. -/
def tdPairs : Scope → List (Nat × Nat)
  | .node d cs =>
    if d.isGroup then
      tdPairsList cs ++ (walkTdIds cs).map (fun t => (d.sid, t))
    else if d.hasTeardown then
      match d.teardown with
      | some _ => [(d.sid, d.sid)]
      | none => []
    else []

def tdPairsList : List Scope → List (Nat × Nat)
  | [] => []
  | c :: cs => tdPairs c ++ tdPairsList cs

end

/-- Occurrence count of an element in a list. -/
def countOf {α : Type} [DecidableEq α] (a : α) : List α → Nat
  | [] => 0
  | x :: xs => (if x = a then 1 else 0) + countOf a xs

/-- The teardown invocations recorded in a trace, in order. -/
def tdCallsOf (tr : List Event) : List (Nat × Nat) :=
  tr.filterMap (fun e =>
    match e with
    | .teardownCall a t => some (a, t)
    | _ => none)

/-! ### The ad-hoc teardown registry (`JobContext.add_teardown`)

`JobContext` (rkojob/__init__.py) declares `add_teardown` /
`remove_teardown` / `get_teardown`, and the spec describes a
`teardown_registry` merged into every invoked teardown; but
`JobContextImpl` (context.py) implements none of them and `JobRunnerImpl`
never consults them — the runner invokes `teardown.teardown(context)`
directly.  The registry is therefore modelled from the spec, *outside*
`RunState`: no runner definition above takes it as an argument, which is
the literal translation of the code never reading it. -/

/-- Modelled from the spec: the context's ad-hoc teardown registry — pairs
of (scope id, callback id) in registration order, populated by
`context.add_teardown(scope, callback)` (missing from `JobContextImpl`). -/
abbrev TeardownRegistry : Type := List (Nat × Nat)

/-- Modelled from the spec: `JobContext.add_teardown` registers a callback
for a scope. -/
def addTeardown (reg : TeardownRegistry) (sid cb : Nat) : TeardownRegistry :=
  List.append reg [(sid, cb)]

/-- One piece of a combined teardown: an ad-hoc registered callback, or the
scope's own `teardown` attribute. -/
inductive TeardownPiece where
  | adhoc (cb : Nat)
  | own
  deriving DecidableEq, Repr

/-- Modelled from the spec: the combined teardown the spec says the runner
invokes for a scope — the ad-hoc callbacks registered for it via
`add_teardown` merged with the scope's own `teardown` delegate into one
`continue_on_error=true, reverse=true` delegate (most recently added
first). -/
def specCombinedTeardown (reg : TeardownRegistry) (td : ScopeData) : List TeardownPiece :=
  ((List.filter (fun p => p.1 = td.sid) reg).map (fun p => TeardownPiece.adhoc p.2)).reverse ++
    (match td.teardown with
     | some _ => [TeardownPiece.own]
     | none => [])

/-- The teardown pieces a trace shows were actually invoked for scope
`tdId`.  The runner has no code path invoking registry callbacks, so only
`own` invocations (the `teardown.teardown(context)` calls) can appear. -/
def actualTeardownPieces (tr : List Event) (tdId : Nat) : List TeardownPiece :=
  tr.filterMap (fun e =>
    match e with
    | .teardownCall _ t => if t = tdId then some TeardownPiece.own else none
    | _ => none)

/-! ### The `Values` store (values.py) and `context_value` (__init__.py) -/

/-- The backing `dict[str, Any]` of a `Values` instance, keys unique and in
insertion order. -/
abbrev Store (α : Type) : Type := List (String × α)

/-- `Values.has_value`. -/
def hasValue {α : Type} (s : Store α) (k : String) : Bool :=
  List.any s (fun p => p.1 = k)

/-- Dictionary read (`self._values[key]` when present). -/
def getVal {α : Type} (s : Store α) (k : String) : Option α :=
  (List.find? (fun p => p.1 = k) s).map (fun p => p.2)

/-- Dictionary assignment `self._values[key] = value`: overwrite in place
when present, else append. -/
def setVal {α : Type} (s : Store α) (k : String) (v : α) : Store α :=
  if List.any s (fun p => p.1 = k) then
    List.map (fun p => if p.1 = k then (k, v) else p) s
  else List.append s [(k, v)]

/-- Errors the `Values` operations can raise: `dict.pop` raises `KeyError`,
`Values.get` raises `NoValueError`. -/
inductive ValuesError where
  | keyError (key : String)
  | noValueError (msg : String)
  deriving DecidableEq, Repr

/-- `Values.get`: a missing key raises `NoValueError` (not `KeyError`). -/
def valuesGet {α : Type} (s : Store α) (k : String) : Except ValuesError α :=
  match List.find? (fun p => p.1 = k) s with
  | some p => .ok p.2
  | none =>
    .error (.noValueError ("Values has no value associated with key '" ++ k ++ "'"))

/-- `Values.unset`: `self._values.pop(key)` — raises `KeyError` when the
key is absent. -/
def valuesUnset {α : Type} (s : Store α) (k : String) : Except ValuesError (Store α) :=
  if List.any s (fun p => p.1 = k) then .ok (List.eraseP (fun p => p.1 = k) s)
  else .error (.keyError k)

/-- The value argument of `Values.set`: a `ValueProvider` (checked first;
`has_value` decides between storing `get()` and unsetting), the `NoValue`
sentinel (also unsets), or a plain value. -/
inductive SetArg (α : Type) where
  | provider (v : Option α)
  | noValueSentinel
  | plain (a : α)

/-- `Values.set`. -/
def valuesSet {α : Type} (s : Store α) (k : String) (v : SetArg α) :
    Except ValuesError (Store α) :=
  match v with
  | .provider (some a) => .ok (setVal s k a)
  | .provider none => valuesUnset s k
  | .noValueSentinel => valuesUnset s k
  | .plain a => .ok (setVal s k a)

/-- `'.'.join(parts)`. -/
def joinDot (l : List String) : String := String.intercalate "." l

/-- The scoped probe keys `context_value.__call__` builds:
`["j.s.t.key", "j.s.key", "j.key"]` for scope-name stack `[j, s, t]`
(most specific first; the bare key is *not* in this list — it is consulted
separately afterwards). -/
def probeKeys (scopes : List String) (key : String) : List String :=
  (List.range scopes.length).reverse.map
    (fun j => joinDot (scopes.take (j + 1)) ++ "." ++ key)

/-- Outcome of `context_value.__call__`: a returned value together with the
(possibly updated) store, or a raised `NoValueError`. -/
inductive CVResult (α : Type) where
  | value (a : α) (store : Store α)
  | noValueError (msg : String)
  deriving DecidableEq, Repr

/-- Apply the optional coercer. -/
def applyCoercer {α : Type} (c : Option (α → α)) (a : α) : α :=
  match c with
  | some f => f a
  | none => a

/-- The error message of `context_value.__call__` when nothing is found
(mirrors `f"No context value found for key '{k}' (first tried: {keys})."`). -/
def cvErrorMsg (key : String) (keys : List String) : String :=
  "No context value found for key '" ++ key ++ "'" ++
    (if keys.isEmpty then ""
     else " (first tried: [" ++
       String.intercalate ", " (keys.map (fun k => "'" ++ k ++ "'")) ++ "]).")

/-- `context_value.__call__` (rkojob/__init__.py): probe the scoped keys
most-specific first; then, *regardless of whether a probe succeeded*, if
the bare key has no value and a default was supplied, write the default to
the bare key and return it; otherwise return the probed value, else the
bare key's value, else raise `NoValueError`.  The coercer applies to looked
up values but not to the returned default. -/
def contextValueCall {α : Type} (key : String) (coercer : Option (α → α))
    (default : Option α) (scopes : List String) (store : Store α) : CVResult α :=
  let keys := probeKeys scopes key
  let found : Option α := keys.findSome? (fun k => getVal store k)
  match hasValue store key, default with
  | false, some dv => .value dv (setVal store key dv)
  | _, _ =>
    match found with
    | some v => .value (applyCoercer coercer v) store
    | none =>
      match getVal store key with
      | some v => .value (applyCoercer coercer v) store
      | none => .noValueError (cvErrorMsg key keys)

/-! ## Basic lemmas about the state operations -/

@[simp]
theorem addEvent_ctxStack (st : RunState) (e : Event) : (addEvent st e).ctxStack = st.ctxStack :=
  rfl

@[simp]
theorem addEvent_stStack (st : RunState) (e : Event) : (addEvent st e).stStack = st.stStack :=
  rfl

@[simp]
theorem addEvent_statuses (st : RunState) (e : Event) : (addEvent st e).statuses = st.statuses :=
  rfl

@[simp]
theorem addEvent_errors (st : RunState) (e : Event) : (addEvent st e).errors = st.errors :=
  rfl

@[simp]
theorem addEvent_trace (st : RunState) (e : Event) : (addEvent st e).trace = st.trace ++ [e] :=
  rfl

@[simp]
theorem getStatus_def (st : RunState) (sid : Nat) :
    getStatus st sid = getStatusOf st.statuses sid := rfl

@[simp]
theorem getStatusOf_nil (sid : Nat) : getStatusOf [] sid = .unknown := rfl

theorem getStatusOf_cons_self (sts : List (Nat × JobScopeStatus)) (sid : Nat)
    (s : JobScopeStatus) : getStatusOf ((sid, s) :: sts) sid = s := by
  simp [getStatusOf]

theorem getStatusOf_cons_ne (sts : List (Nat × JobScopeStatus)) (sid i : Nat)
    (s : JobScopeStatus) (h : i ≠ sid) :
    getStatusOf ((sid, s) :: sts) i = getStatusOf sts i := by
  simp [getStatusOf, List.find?_cons, Ne.symm h]

theorem startScopeOp_of_unknown (st : RunState) (sid : Nat)
    (h : getStatus st sid = .unknown) :
    startScopeOp st sid =
      ({ st with statuses := (sid, .running) :: st.statuses,
                 stStack := st.stStack ++ [sid],
                 trace := st.trace ++ [.startScope sid] }, none) := by
  have h' : getStatusOf st.statuses sid = JobScopeStatus.unknown := h
  simp [startScopeOp, h', setStatus, addEvent]

theorem finishScopeOp_of_last (st : RunState) (sid : Nat)
    (h : st.stStack.getLast? = some sid) :
    finishScopeOp st sid =
      ({ st with statuses := (sid, finishStatus st sid) :: st.statuses,
                 stStack := st.stStack.dropLast,
                 trace := st.trace ++ [.finishScope sid] }, none) := by
  simp [finishScopeOp, h, setStatus, addEvent]

theorem exitCtx_of_last (st : RunState) (sid : Nat)
    (h : st.ctxStack.getLast? = some sid) :
    exitCtx st sid = ({ st with ctxStack := st.ctxStack.dropLast }, none) := by
  simp [exitCtx, h]

theorem recordError_of_last (st : RunState) (m : String) (s : Nat)
    (h : st.stStack.getLast? = some s) :
    recordError st m =
      { st with errors := addErrorToMap st.errors st.stStack m,
                trace := st.trace ++ [.errorRec m],
                statuses := (s, .failing) :: st.statuses } := by
  simp [recordError, h, setStatus]

@[simp]
theorem laterErr_none (e : Option String) : laterErr none e = e := rfl

/-- `_run_teardown` only appends events: its effect is fully described by
`tdOpTraceSt` over the current statuses. -/
theorem runTeardownOp_eq (st : RunState) (o td : ScopeData) :
    runTeardownOp st o td = { st with trace := st.trace ++ tdOpTraceSt st.statuses o td } := by
  unfold runTeardownOp tdOpTraceSt
  by_cases h : getStatusOf st.statuses td.sid = .unknown ∨ getStatusOf st.statuses td.sid = .skipped
  · simp [h, addEvent]
  · simp only [getStatus_def, h, if_false, if_neg h]
    match htd : td.teardown with
    | none => simp [tdOpTrace, htd]
    | some .ok => simp [tdOpTrace, htd, addEvent]
    | some (.fail m) => simp [tdOpTrace, htd, addEvent]

mutual

/-- One step of the `_run_group_teardown` walk only appends events. -/
theorem runGroupTeardownChild_eq (st : RunState) (o : ScopeData) (c : Scope) :
    runGroupTeardownChild st o c =
      { st with trace := st.trace ++ walkTraceStChild st.statuses o c } := by
  match c with
  | .node cd ccs =>
    simp only [runGroupTeardownChild, walkTraceStChild]
    by_cases hg : cd.isGroup
    · simp only [hg, if_true]
      exact runGroupTeardownList_eq st o ccs
    · by_cases ht : cd.hasTeardown
      · simp only [hg, ht, if_false, if_true]
        exact runTeardownOp_eq st o cd
      · simp [hg, ht]

/-- The `_run_group_teardown` walk only appends events: its effect is fully
described by `walkTraceStList` over the statuses at walk time. -/
theorem runGroupTeardownList_eq (st : RunState) (o : ScopeData) (cs : List Scope) :
    runGroupTeardownList st o cs =
      { st with trace := st.trace ++ walkTraceStList st.statuses o cs } := by
  match cs with
  | [] => simp [runGroupTeardownList, walkTraceStList]
  | c :: rest =>
    rw [runGroupTeardownList, runGroupTeardownList_eq st o rest, runGroupTeardownChild_eq]
    simp [walkTraceStList]

end

/-! ## Characterizations of the composite steps of `_run_scope` -/

@[simp]
theorem enteredState_ctxStack (st : RunState) (sid : Nat) :
    (enteredState st sid).ctxStack = st.ctxStack ++ [sid] := rfl

@[simp]
theorem enteredState_stStack (st : RunState) (sid : Nat) :
    (enteredState st sid).stStack = st.stStack ++ [sid] := rfl

@[simp]
theorem enteredState_statuses (st : RunState) (sid : Nat) :
    (enteredState st sid).statuses = (sid, JobScopeStatus.running) :: st.statuses := rfl

@[simp]
theorem enteredState_errors (st : RunState) (sid : Nat) :
    (enteredState st sid).errors = st.errors := rfl

@[simp]
theorem enteredState_trace (st : RunState) (sid : Nat) :
    (enteredState st sid).trace = st.trace ++ [Event.startScope sid] := rfl

/-- A successful scope entry: push the context stack, then `start_scope`. -/
theorem enterStart_eq (st : RunState) (sid : Nat)
    (h : getStatus st sid = JobScopeStatus.unknown) :
    startScopeOp (enterCtx st sid) sid = (enteredState st sid, none) := by
  have h' : getStatus (enterCtx st sid) sid = JobScopeStatus.unknown := h
  rw [startScopeOp_of_unknown _ _ h']
  rfl

theorem recordError_ctxStack (st : RunState) (m : String) :
    (recordError st m).ctxStack = st.ctxStack := by
  rcases h : st.stStack.getLast? with _ | s
  · simp [recordError, h]
  · simp [recordError, h, setStatus]

theorem recordError_stStack (st : RunState) (m : String) :
    (recordError st m).stStack = st.stStack := by
  rcases h : st.stStack.getLast? with _ | s
  · simp [recordError, h]
  · simp [recordError, h, setStatus]

theorem actionBody_ctxStack (st : RunState) (d : ScopeData) :
    (actionBody st d).ctxStack = st.ctxStack := by
  unfold actionBody
  match d.action with
  | some .ok => rfl
  | some (.fail m) => exact recordError_ctxStack _ _
  | none => rfl

theorem actionBody_stStack (st : RunState) (d : ScopeData) :
    (actionBody st d).stStack = st.stStack := by
  unfold actionBody
  match d.action with
  | some .ok => rfl
  | some (.fail m) => exact recordError_stStack _ _
  | none => rfl

/-- `_run_action` on a state whose innermost running scope is `d` itself:
full characterization. -/
theorem actionBody_eq_of_last (st : RunState) (d : ScopeData)
    (h : st.stStack.getLast? = some d.sid) :
    actionBody st d =
      match d.action with
      | some .ok => { st with trace := st.trace ++ [Event.actionCall d.sid] }
      | some (.fail m) =>
        { st with trace := st.trace ++ [Event.actionCall d.sid, Event.errorRec m],
                  errors := addErrorToMap st.errors st.stStack m,
                  statuses := (d.sid, JobScopeStatus.failing) :: st.statuses }
      | none => st := by
  match hact : d.action with
  | some .ok => simp [actionBody, hact, addEvent]
  | some (.fail m) =>
    have h' : (addEvent st (Event.actionCall d.sid)).stStack.getLast? = some d.sid := h
    simp only [actionBody, hact]
    rw [recordError_of_last _ _ _ h']
    simp [addEvent]
  | none => simp [actionBody, hact]

/-- The teardown phase only appends events. -/
theorem teardownPhase_eq (st : RunState) (d : ScopeData) (cs : List Scope) :
    teardownPhase st d cs = { st with trace := st.trace ++ phaseTraceSt st.statuses d cs } := by
  unfold teardownPhase phaseTraceSt
  by_cases hg : d.isGroup = true
  · simp only [hg, if_true]
    exact runGroupTeardownList_eq st d cs
  · by_cases ht : d.hasTeardown = true
    · simp only [hg, ht, if_false, if_true]
      exact runTeardownOp_eq st d d
    · simp [hg, ht]

/-- The exit sequence when the body raised nothing and our own pushes are
on top of both stacks. -/
theorem finishExit_eq (st5 : RunState) (d : ScopeData)
    (h1 : st5.stStack.getLast? = some d.sid)
    (h2 : st5.ctxStack.getLast? = some d.sid) :
    finishExit st5 d none =
      ({ st5 with statuses := (d.sid, finishStatus st5 d.sid) :: st5.statuses,
                  stStack := st5.stStack.dropLast,
                  ctxStack := st5.ctxStack.dropLast,
                  trace := st5.trace ++ [Event.finishScope d.sid] }, none) := by
  unfold finishExit
  rw [finishScopeOp_of_last _ _ h1]
  have h2' : ({ st5 with statuses := (d.sid, finishStatus st5 d.sid) :: st5.statuses,
                         stStack := st5.stStack.dropLast,
                         trace := st5.trace ++ [Event.finishScope d.sid] } :
      RunState).ctxStack.getLast? = some d.sid := h2
  dsimp only
  rw [exitCtx_of_last _ _ h2']
  rfl

/-! ## Well-formed runs raise nothing and keep the stacks balanced -/

/-- A scope tree the runner can execute without structural errors:
distinct ids and at least one capability per scope. -/
def WellFormed (s : Scope) : Prop :=
  allCap s = true ∧ (scopeIds s).Nodup

theorem sid_mem_scopeIds (d : ScopeData) (cs : List Scope) :
    d.sid ∈ scopeIds (.node d cs) := by
  simp [scopeIds]

mutual

/-- `_run_scope` on a tree with distinct ids and no capability-less scope
returns without raising, leaves both stacks as it found them, and touches
only the statuses of ids inside the tree. -/
theorem runScope_wf (s : Scope) (st : RunState)
    (hcap : allCap s = true)
    (hnd : (scopeIds s).Nodup)
    (hun : ∀ i ∈ scopeIds s, getStatus st i = JobScopeStatus.unknown) :
    ∃ st', runScope st s = (st', none) ∧ st'.ctxStack = st.ctxStack ∧
      st'.stStack = st.stStack ∧
      (∀ i, i ∉ scopeIds s → getStatus st' i = getStatus st i) := by
  match s with
  | .node d cs =>
    simp only [allCap, Bool.and_eq_true, Bool.or_eq_true] at hcap
    obtain ⟨h1, hcl⟩ := hcap
    have hc : (!d.isGroup && !d.hasAction && !d.hasTeardown) = false := by
      rcases h1 with (h | h) | h <;> simp [h]
    simp only [scopeIds, List.nodup_cons] at hnd
    obtain ⟨hdn, hndl⟩ := hnd
    have hdun : getStatus st d.sid = JobScopeStatus.unknown :=
      hun d.sid (sid_mem_scopeIds d cs)
    rw [runScope]
    simp only [hc, Bool.false_eq_true, if_false]
    by_cases hskip : (shouldSkip st d).1 = true
    · -- skipped: only the skip event and the SKIPPED status
      simp only [hskip, if_true]
      refine ⟨_, rfl, ?_, ?_, ?_⟩
      · simp [skipScopeOp, setStatus]
      · simp [skipScopeOp, setStatus]
      · intro i hi
        have hne : i ≠ d.sid := by
          intro h; exact hi (h ▸ sid_mem_scopeIds d cs)
        simp only [skipScopeOp, addEvent, setStatus, getStatus_def]
        exact getStatusOf_cons_ne _ _ _ _ hne
    · simp only [eq_false_of_ne_true hskip, Bool.false_eq_true, if_false]
      simp only [enterStart_eq st d.sid hdun]
      have hbody : ∃ st3, (if d.isGroup = true then runScopes (enteredState st d.sid) cs
            else if d.hasAction = true then (actionBody (enteredState st d.sid) d, none)
            else (enteredState st d.sid, none)) = (st3, none) ∧
          st3.ctxStack = st.ctxStack ++ [d.sid] ∧ st3.stStack = st.stStack ++ [d.sid] ∧
          (∀ i, i ∉ scopeIds (.node d cs) → getStatus st3 i = getStatus st i) := by
        have hframe0 : ∀ i, i ≠ d.sid →
            getStatus (enteredState st d.sid) i = getStatus st i := by
          intro i hne
          simp only [getStatus_def, enteredState_statuses]
          exact getStatusOf_cons_ne _ _ _ _ hne
        by_cases hg : d.isGroup = true
        · have hun2 : ∀ i ∈ scopeIdsList cs,
              getStatus (enteredState st d.sid) i = JobScopeStatus.unknown := by
            intro i hi
            have hne : i ≠ d.sid := fun h => hdn (h ▸ hi)
            rw [hframe0 i hne]
            exact hun i (by simp [scopeIds, hi])
          obtain ⟨st3, heq, hctx, hst, hframe⟩ :=
            runScopes_wf cs (enteredState st d.sid) hcl hndl hun2
          refine ⟨st3, by rw [if_pos hg, heq], by simpa using hctx, by simpa using hst, ?_⟩
          intro i hi
          have hne : i ≠ d.sid := by
            intro h; exact hi (h ▸ sid_mem_scopeIds d cs)
          have hnm : i ∉ scopeIdsList cs := by
            intro hmem; exact hi (by simp [scopeIds, hmem])
          rw [hframe i hnm, hframe0 i hne]
        · by_cases ha : d.hasAction = true
          · refine ⟨actionBody (enteredState st d.sid) d,
              by rw [if_neg hg, if_pos ha], ?_, ?_, ?_⟩
            · rw [actionBody_ctxStack]; simp
            · rw [actionBody_stStack]; simp
            · intro i hi
              have hne : i ≠ d.sid := by
                intro h; exact hi (h ▸ sid_mem_scopeIds d cs)
              have hlast : (enteredState st d.sid).stStack.getLast? = some d.sid := by
                simp
              rw [actionBody_eq_of_last _ _ hlast]
              match d.action with
              | some .ok => exact hframe0 i hne
              | some (.fail m) =>
                simp only [getStatus_def]
                rw [getStatusOf_cons_ne _ _ _ _ hne]
                exact hframe0 i hne
              | none => exact hframe0 i hne
          · exact ⟨enteredState st d.sid, by rw [if_neg hg, if_neg ha], by simp, by simp,
              fun i hi => hframe0 i (by intro h; exact hi (h ▸ sid_mem_scopeIds d cs))⟩
      obtain ⟨st3, hbeq, hbctx, hbst, hbframe⟩ := hbody
      simp only [hbeq]
      rw [teardownPhase_eq]
      have h1 : ({ st3 with trace := st3.trace ++ phaseTraceSt st3.statuses d cs } :
          RunState).stStack.getLast? = some d.sid := by
        show st3.stStack.getLast? = some d.sid
        rw [hbst]; exact List.getLast?_concat _
      have h2 : ({ st3 with trace := st3.trace ++ phaseTraceSt st3.statuses d cs } :
          RunState).ctxStack.getLast? = some d.sid := by
        show st3.ctxStack.getLast? = some d.sid
        rw [hbctx]; exact List.getLast?_concat _
      rw [finishExit_eq _ _ h1 h2]
      refine ⟨_, rfl, ?_, ?_, ?_⟩
      · show st3.ctxStack.dropLast = st.ctxStack
        rw [hbctx]; exact List.dropLast_concat ..
      · show st3.stStack.dropLast = st.stStack
        rw [hbst]; exact List.dropLast_concat ..
      · intro i hi
        have hne : i ≠ d.sid := by
          intro h; exact hi (h ▸ sid_mem_scopeIds d cs)
        show getStatusOf ((d.sid, _) :: st3.statuses) i = getStatus st i
        rw [getStatusOf_cons_ne _ _ _ _ hne]
        exact hbframe i hi

/-- `_run_group`'s loop, same guarantees as `runScope_wf`. -/
theorem runScopes_wf (cs : List Scope) (st : RunState)
    (hcap : allCapList cs = true)
    (hnd : (scopeIdsList cs).Nodup)
    (hun : ∀ i ∈ scopeIdsList cs, getStatus st i = JobScopeStatus.unknown) :
    ∃ st', runScopes st cs = (st', none) ∧ st'.ctxStack = st.ctxStack ∧
      st'.stStack = st.stStack ∧
      (∀ i, i ∉ scopeIdsList cs → getStatus st' i = getStatus st i) := by
  match cs with
  | [] => exact ⟨st, rfl, rfl, rfl, fun i _ => rfl⟩
  | c :: rest =>
    simp only [allCapList, Bool.and_eq_true] at hcap
    obtain ⟨hc1, hcr⟩ := hcap
    simp only [scopeIdsList, List.nodup_append] at hnd
    obtain ⟨hnd1, hndr, hdisj⟩ := hnd
    obtain ⟨st1, heq1, hctx1, hst1, hframe1⟩ := runScope_wf c st hc1 hnd1
      (fun i hi => hun i (by simp [scopeIdsList, hi]))
    have hun1 : ∀ i ∈ scopeIdsList rest, getStatus st1 i = JobScopeStatus.unknown := by
      intro i hi
      have hnmem : i ∉ scopeIds c := fun hmem => hdisj hmem hi
      rw [hframe1 i hnmem]
      exact hun i (by simp [scopeIdsList, hi])
    obtain ⟨st2, heq2, hctx2, hst2, hframe2⟩ := runScopes_wf rest st1 hcr hndr hun1
    refine ⟨st2, ?_, hctx2.trans hctx1, hst2.trans hst1, ?_⟩
    · rw [runScopes]
      simp only [heq1]
      exact heq2
    · intro i hi
      simp only [scopeIdsList, List.mem_append] at hi
      push_neg at hi
      rw [hframe2 i hi.2, hframe1 i hi.1]

end

/-! ## Full trace characterization for condition-free trees -/

theorem tdOpTraceSt_ran (sts : List (Nat × JobScopeStatus)) (o td : ScopeData)
    (h : ¬(getStatusOf sts td.sid = .unknown ∨ getStatusOf sts td.sid = .skipped)) :
    tdOpTraceSt sts o td = tdOpTrace o td := by
  simp [tdOpTraceSt, h]

mutual

theorem walkTraceStChild_ran (sts : List (Nat × JobScopeStatus)) (o : ScopeData) (c : Scope)
    (h : ∀ i ∈ scopeIds c,
      ¬(getStatusOf sts i = JobScopeStatus.unknown ∨ getStatusOf sts i = JobScopeStatus.skipped)) :
    walkTraceStChild sts o c = walkTraceChild o c := by
  match c with
  | .node cd ccs =>
    simp only [walkTraceStChild, walkTraceChild]
    by_cases hg : cd.isGroup = true
    · simp only [hg, if_true]
      exact walkTraceStList_ran sts o ccs
        (fun i hi => h i (by simp [scopeIds, hi]))
    · by_cases ht : cd.hasTeardown = true
      · simp only [hg, ht, if_false, if_true]
        exact tdOpTraceSt_ran sts o cd (h cd.sid (sid_mem_scopeIds cd ccs))
      · simp [hg, ht]

theorem walkTraceStList_ran (sts : List (Nat × JobScopeStatus)) (o : ScopeData)
    (cs : List Scope)
    (h : ∀ i ∈ scopeIdsList cs,
      ¬(getStatusOf sts i = JobScopeStatus.unknown ∨ getStatusOf sts i = JobScopeStatus.skipped)) :
    walkTraceStList sts o cs = walkTraceList o cs := by
  match cs with
  | [] => rfl
  | c :: rest =>
    rw [walkTraceStList, walkTraceList,
      walkTraceStList_ran sts o rest (fun i hi => h i (by simp [scopeIdsList, hi])),
      walkTraceStChild_ran sts o c (fun i hi => h i (by simp [scopeIdsList, hi]))]

end

/-- A non-conditional scope is never skipped (`_should_skip` falls through
to `job_never`). -/
theorem shouldSkip_of_not_conditional (st : RunState) (d : ScopeData)
    (h : d.isConditional = false) : shouldSkip st d = (false, "Never") := by
  simp [shouldSkip, h, resolveConditional]

theorem finishStatus_passed_or_failed (st : RunState) (sid : Nat) :
    finishStatus st sid = JobScopeStatus.passed ∨ finishStatus st sid = JobScopeStatus.failed := by
  unfold finishStatus
  by_cases h : getErrorsFor st (some sid) ≠ []
  · right; simp [h]
  · left; simp [h]

mutual

/-- `_run_scope` on a condition-free well-formed tree: nothing raises, the
stacks are restored, the appended trace is exactly `scopeTrace`, every
scope of the tree ends PASSED or FAILED, and no other status changes. -/
theorem runScope_trace (s : Scope) (st : RunState)
    (hcap : allCap s = true)
    (hnc : noCond s = true)
    (hwf : wfLeaves s = true)
    (hnd : (scopeIds s).Nodup)
    (hun : ∀ i ∈ scopeIds s, getStatus st i = JobScopeStatus.unknown) :
    ∃ st', runScope st s = (st', none) ∧ st'.ctxStack = st.ctxStack ∧
      st'.stStack = st.stStack ∧
      st'.trace = st.trace ++ scopeTrace s ∧
      (∀ i, i ∉ scopeIds s → getStatus st' i = getStatus st i) ∧
      (∀ i ∈ scopeIds s,
        getStatus st' i = JobScopeStatus.passed ∨ getStatus st' i = JobScopeStatus.failed) := by
  match s with
  | .node d cs =>
    simp only [allCap, Bool.and_eq_true, Bool.or_eq_true] at hcap
    obtain ⟨h1, hcl⟩ := hcap
    have hc : (!d.isGroup && !d.hasAction && !d.hasTeardown) = false := by
      rcases h1 with (h | h) | h <;> simp [h]
    simp only [noCond, Bool.and_eq_true, Bool.not_eq_true'] at hnc
    obtain ⟨hncd, hncl⟩ := hnc
    simp only [wfLeaves, Bool.and_eq_true, Bool.or_eq_true] at hwf
    obtain ⟨hwf1, hwfl⟩ := hwf
    simp only [scopeIds, List.nodup_cons] at hnd
    obtain ⟨hdn, hndl⟩ := hnd
    have hdun : getStatus st d.sid = JobScopeStatus.unknown :=
      hun d.sid (sid_mem_scopeIds d cs)
    have hskip : (shouldSkip st d).1 = false := by
      rw [shouldSkip_of_not_conditional st d hncd]
    rw [runScope]
    simp only [hc, Bool.false_eq_true, if_false, hskip]
    simp only [enterStart_eq st d.sid hdun]
    have hframe0 : ∀ i, i ≠ d.sid →
        getStatus (enteredState st d.sid) i = getStatus st i := by
      intro i hne
      simp only [getStatus_def, enteredState_statuses]
      exact getStatusOf_cons_ne _ _ _ _ hne
    have hbody : ∃ st3, (if d.isGroup = true then runScopes (enteredState st d.sid) cs
          else if d.hasAction = true then (actionBody (enteredState st d.sid) d, none)
          else (enteredState st d.sid, none)) = (st3, none) ∧
        st3.ctxStack = st.ctxStack ++ [d.sid] ∧ st3.stStack = st.stStack ++ [d.sid] ∧
        st3.trace = st.trace ++ [Event.startScope d.sid] ++
          (if d.isGroup then scopeTraceList cs else actTrace d) ∧
        (∀ i, i ∉ scopeIds (.node d cs) → getStatus st3 i = getStatus st i) ∧
        (d.isGroup = true → ∀ i ∈ scopeIdsList cs,
          getStatus st3 i = JobScopeStatus.passed ∨ getStatus st3 i = JobScopeStatus.failed) ∧
        (d.isGroup = false →
          (getStatus st3 d.sid = JobScopeStatus.running ∨
            getStatus st3 d.sid = JobScopeStatus.failing)) := by
      by_cases hg : d.isGroup = true
      · have hun2 : ∀ i ∈ scopeIdsList cs,
            getStatus (enteredState st d.sid) i = JobScopeStatus.unknown := by
          intro i hi
          have hne : i ≠ d.sid := fun h => hdn (h ▸ hi)
          rw [hframe0 i hne]
          exact hun i (by simp [scopeIds, hi])
        obtain ⟨st3, heq, hctx, hst, htr, hframe, hstat⟩ :=
          runScopes_trace cs (enteredState st d.sid) hcl hncl hwfl hndl hun2
        refine ⟨st3, by rw [if_pos hg, heq], by simpa using hctx, by simpa using hst,
          ?_, ?_, fun _ => hstat, fun hgf => absurd hg (by simp [hgf])⟩
        · rw [htr, hg]
          simp
        · intro i hi
          have hne : i ≠ d.sid := by
            intro h; exact hi (h ▸ sid_mem_scopeIds d cs)
          have hnm : i ∉ scopeIdsList cs := by
            intro hmem; exact hi (by simp [scopeIds, hmem])
          rw [hframe i hnm, hframe0 i hne]
      · have hlast : (enteredState st d.sid).stStack.getLast? = some d.sid := by simp
        have hgf : d.isGroup = false := eq_false_of_ne_true hg
        by_cases ha : d.hasAction = true
        · refine ⟨actionBody (enteredState st d.sid) d,
            by rw [if_neg hg, if_pos ha], ?_, ?_, ?_, ?_, fun h => absurd h hg, fun _ => ?_⟩
          · rw [actionBody_ctxStack]; simp
          · rw [actionBody_stStack]; simp
          · rw [actionBody_eq_of_last _ _ hlast]
            match hact : d.action with
            | some .ok => simp [hgf, actTrace, ha, hact]
            | some (.fail m) => simp [hgf, actTrace, ha, hact]
            | none => simp [hgf, actTrace, ha, hact]
          · intro i hi
            have hne : i ≠ d.sid := by
              intro h; exact hi (h ▸ sid_mem_scopeIds d cs)
            rw [actionBody_eq_of_last _ _ hlast]
            match d.action with
            | some .ok => exact hframe0 i hne
            | some (.fail m) =>
              simp only [getStatus_def]
              rw [getStatusOf_cons_ne _ _ _ _ hne]
              exact hframe0 i hne
            | none => exact hframe0 i hne
          · rw [actionBody_eq_of_last _ _ hlast]
            match d.action with
            | some .ok =>
              left
              simp [getStatusOf_cons_self]
            | some (.fail m) =>
              right
              simp only [getStatus_def]
              exact getStatusOf_cons_self _ _ _
            | none =>
              left
              simp [getStatusOf_cons_self]
        · have haf : d.hasAction = false := eq_false_of_ne_true ha
          refine ⟨enteredState st d.sid, by rw [if_neg hg, if_neg ha], by simp, by simp,
            by simp [hgf, actTrace, haf], ?_, fun h => absurd h hg, fun _ => ?_⟩
          · exact fun i hi => hframe0 i (by
              intro h; exact hi (h ▸ sid_mem_scopeIds d cs))
          · left
            simp [getStatusOf_cons_self]
    obtain ⟨st3, hbeq, hbctx, hbst, hbtr, hbframe, hbgroup, hbleaf⟩ := hbody
    simp only [hbeq]
    rw [teardownPhase_eq]
    have hphase : phaseTraceSt st3.statuses d cs =
        (if d.isGroup then walkTraceList d cs
          else if d.hasTeardown then tdOpTrace d d
          else []) := by
      unfold phaseTraceSt
      by_cases hg : d.isGroup = true
      · simp only [hg, if_true]
        refine walkTraceStList_ran st3.statuses d cs ?_
        intro i hi
        rcases hbgroup hg i hi with h | h <;>
          · rw [getStatus_def] at h
            rw [h]
            simp
      · by_cases ht : d.hasTeardown = true
        · simp only [hg, ht, if_false, if_true]
          refine tdOpTraceSt_ran st3.statuses d d ?_
          rcases hbleaf (eq_false_of_ne_true hg) with h | h <;>
            · rw [getStatus_def] at h
              rw [h]
              simp
        · simp [hg, ht]
    have h1 : ({ st3 with trace := st3.trace ++ phaseTraceSt st3.statuses d cs } :
        RunState).stStack.getLast? = some d.sid := by
      show st3.stStack.getLast? = some d.sid
      rw [hbst]; exact List.getLast?_concat _
    have h2 : ({ st3 with trace := st3.trace ++ phaseTraceSt st3.statuses d cs } :
        RunState).ctxStack.getLast? = some d.sid := by
      show st3.ctxStack.getLast? = some d.sid
      rw [hbctx]; exact List.getLast?_concat _
    rw [finishExit_eq _ _ h1 h2]
    refine ⟨_, rfl, ?_, ?_, ?_, ?_, ?_⟩
    · show st3.ctxStack.dropLast = st.ctxStack
      rw [hbctx]; exact List.dropLast_concat ..
    · show st3.stStack.dropLast = st.stStack
      rw [hbst]; exact List.dropLast_concat ..
    · show st3.trace ++ phaseTraceSt st3.statuses d cs ++ [Event.finishScope d.sid]
        = st.trace ++ scopeTrace (.node d cs)
      rw [hphase, hbtr, scopeTrace]
      simp
    · intro i hi
      have hne : i ≠ d.sid := by
        intro h; exact hi (h ▸ sid_mem_scopeIds d cs)
      show getStatusOf ((d.sid, _) :: st3.statuses) i = getStatus st i
      rw [getStatusOf_cons_ne _ _ _ _ hne]
      exact hbframe i hi
    · intro i hi
      by_cases hid : i = d.sid
      · subst hid
        rcases finishStatus_passed_or_failed
            ({ st3 with trace := st3.trace ++ phaseTraceSt st3.statuses d cs } : RunState) d.sid
          with h | h
        · left
          show getStatusOf ((d.sid, _) :: st3.statuses) d.sid = JobScopeStatus.passed
          rw [getStatusOf_cons_self]
          exact h
        · right
          show getStatusOf ((d.sid, _) :: st3.statuses) d.sid = JobScopeStatus.failed
          rw [getStatusOf_cons_self]
          exact h
      · -- i is inside the children of a group (a leaf has no children)
        simp only [scopeIds, List.mem_cons] at hi
        rcases hi with h | hi
        · exact absurd h hid
        have hsuff : getStatus st3 i = JobScopeStatus.passed ∨
            getStatus st3 i = JobScopeStatus.failed := by
          by_cases hg : d.isGroup = true
          · exact hbgroup hg i hi
          · rcases hwf1 with h | h
            · exact absurd h hg
            · simp only [List.isEmpty_iff] at h
              subst h
              simp [scopeIdsList] at hi
        rcases hsuff with h | h
        · left
          show getStatusOf ((d.sid, _) :: st3.statuses) i = JobScopeStatus.passed
          rw [getStatusOf_cons_ne _ _ _ _ hid]
          exact h
        · right
          show getStatusOf ((d.sid, _) :: st3.statuses) i = JobScopeStatus.failed
          rw [getStatusOf_cons_ne _ _ _ _ hid]
          exact h

/-- `_run_group`'s loop over condition-free well-formed children. -/
theorem runScopes_trace (cs : List Scope) (st : RunState)
    (hcap : allCapList cs = true)
    (hnc : noCondList cs = true)
    (hwf : wfLeavesList cs = true)
    (hnd : (scopeIdsList cs).Nodup)
    (hun : ∀ i ∈ scopeIdsList cs, getStatus st i = JobScopeStatus.unknown) :
    ∃ st', runScopes st cs = (st', none) ∧ st'.ctxStack = st.ctxStack ∧
      st'.stStack = st.stStack ∧
      st'.trace = st.trace ++ scopeTraceList cs ∧
      (∀ i, i ∉ scopeIdsList cs → getStatus st' i = getStatus st i) ∧
      (∀ i ∈ scopeIdsList cs,
        getStatus st' i = JobScopeStatus.passed ∨ getStatus st' i = JobScopeStatus.failed) := by
  match cs with
  | [] => exact ⟨st, rfl, rfl, rfl, by simp [scopeTraceList], fun i _ => rfl, by simp [scopeIdsList]⟩
  | c :: rest =>
    simp only [allCapList, Bool.and_eq_true] at hcap
    obtain ⟨hc1, hcr⟩ := hcap
    simp only [noCondList, Bool.and_eq_true] at hnc
    obtain ⟨hnc1, hncr⟩ := hnc
    simp only [wfLeavesList, Bool.and_eq_true] at hwf
    obtain ⟨hwf1, hwfr⟩ := hwf
    simp only [scopeIdsList, List.nodup_append] at hnd
    obtain ⟨hnd1, hndr, hdisj⟩ := hnd
    obtain ⟨st1, heq1, hctx1, hst1, htr1, hframe1, hstat1⟩ :=
      runScope_trace c st hc1 hnc1 hwf1 hnd1
        (fun i hi => hun i (by simp [scopeIdsList, hi]))
    have hun1 : ∀ i ∈ scopeIdsList rest, getStatus st1 i = JobScopeStatus.unknown := by
      intro i hi
      have hnmem : i ∉ scopeIds c := fun hmem => hdisj hmem hi
      rw [hframe1 i hnmem]
      exact hun i (by simp [scopeIdsList, hi])
    obtain ⟨st2, heq2, hctx2, hst2, htr2, hframe2, hstat2⟩ :=
      runScopes_trace rest st1 hcr hncr hwfr hndr hun1
    refine ⟨st2, ?_, hctx2.trans hctx1, hst2.trans hst1, ?_, ?_, ?_⟩
    · rw [runScopes]
      simp only [heq1]
      exact heq2
    · rw [htr2, htr1, scopeTraceList]
      simp
    · intro i hi
      simp only [scopeIdsList, List.mem_append] at hi
      push_neg at hi
      rw [hframe2 i hi.2, hframe1 i hi.1]
    · intro i hi
      simp only [scopeIdsList, List.mem_append] at hi
      rcases hi with hi | hi
      · have hnmem : i ∉ scopeIdsList rest := fun hmem => hdisj hi hmem
        rw [hframe2 i hnmem]
        exact hstat1 i hi
      · exact hstat2 i hi

end

/-! ## Counting events in the canonical trace -/

theorem countOf_append {α : Type} [DecidableEq α] (a : α) (l1 l2 : List α) :
    countOf a (l1 ++ l2) = countOf a l1 + countOf a l2 := by
  induction l1 with
  | nil => simp [countOf]
  | cons x xs ih => simp [countOf, ih, Nat.add_assoc]

theorem countOf_eq_zero_of_not_mem {α : Type} [DecidableEq α] {a : α} {l : List α}
    (h : a ∉ l) : countOf a l = 0 := by
  induction l with
  | nil => rfl
  | cons x xs ih =>
    simp only [List.mem_cons, not_or] at h
    have hx : ¬x = a := fun hxa => h.1 hxa.symm
    simp [countOf, hx, ih h.2]

theorem countOf_eq_one_of_nodup_mem {α : Type} [DecidableEq α] {a : α} {l : List α}
    (hnd : l.Nodup) (h : a ∈ l) : countOf a l = 1 := by
  induction l with
  | nil => simp at h
  | cons x xs ih =>
    simp only [List.nodup_cons] at hnd
    rcases List.mem_cons.mp h with h | h
    · subst h
      simp [countOf, countOf_eq_zero_of_not_mem hnd.1]
    · have hx : ¬x = a := fun hxa => hnd.1 (hxa ▸ h)
      simp [countOf, hx, ih hnd.2 h]

theorem countOf_pair_map (a o t : Nat) (l : List Nat) :
    countOf (a, t) (l.map (fun x => (o, x))) = if a = o then countOf t l else 0 := by
  induction l with
  | nil => by_cases h : a = o <;> simp [countOf, h]
  | cons x xs ih =>
    by_cases h : a = o
    · subst h
      simp only [List.map_cons, countOf, ih, if_pos rfl]
      by_cases hx : x = t
      · simp [hx]
      · have : ¬(a, x) = (a, t) := by simp [hx]
        simp [hx, this]
    · have hne : ¬(o, x) = (a, t) := by
        intro hh
        exact h (congrArg Prod.fst hh).symm
      simp [countOf, ih, h, hne]

theorem countStart_tdOpTrace (o td : ScopeData) (i : Nat) :
    countOf (Event.startScope i) (tdOpTrace o td) = 0 := by
  match htd : td.teardown with
  | none => simp [tdOpTrace, htd, countOf]
  | some .ok => simp [tdOpTrace, htd, countOf]
  | some (.fail m) => simp [tdOpTrace, htd, countOf]

theorem countAct_tdOpTrace (o td : ScopeData) (i : Nat) :
    countOf (Event.actionCall i) (tdOpTrace o td) = 0 := by
  match htd : td.teardown with
  | none => simp [tdOpTrace, htd, countOf]
  | some .ok => simp [tdOpTrace, htd, countOf]
  | some (.fail m) => simp [tdOpTrace, htd, countOf]

theorem countTd_tdOpTrace (o td : ScopeData) (a t : Nat) :
    countOf (Event.teardownCall a t) (tdOpTrace o td) =
      countOf (a, t) (match td.teardown with
        | some _ => [(o.sid, td.sid)]
        | none => ([] : List (Nat × Nat))) := by
  match htd : td.teardown with
  | none => simp [tdOpTrace, htd, countOf]
  | some .ok =>
    simp only [tdOpTrace, htd, countOf]
    by_cases h : (o.sid, td.sid) = (a, t)
    · obtain ⟨h1, h2⟩ := Prod.mk.injEq .. ▸ h
      simp_all [countOf]
    · have h' : ¬Event.teardownCall o.sid td.sid = Event.teardownCall a t := by
        simp only [Event.teardownCall.injEq]
        intro ⟨h1, h2⟩
        exact h (by simp [h1, h2])
      simp [countOf, h, h']
  | some (.fail m) =>
    simp only [tdOpTrace, htd, countOf]
    by_cases h : (o.sid, td.sid) = (a, t)
    · obtain ⟨h1, h2⟩ := Prod.mk.injEq .. ▸ h
      simp_all [countOf]
    · have h' : ¬Event.teardownCall o.sid td.sid = Event.teardownCall a t := by
        simp only [Event.teardownCall.injEq]
        intro ⟨h1, h2⟩
        exact h (by simp [h1, h2])
      simp [countOf, h, h']

mutual

theorem countStart_walkChild (o : ScopeData) (c : Scope) (i : Nat) :
    countOf (Event.startScope i) (walkTraceChild o c) = 0 := by
  match c with
  | .node cd ccs =>
    rw [walkTraceChild]
    by_cases hg : cd.isGroup = true
    · rw [if_pos hg]
      exact countStart_walkList o ccs i
    · by_cases ht : cd.hasTeardown = true
      · rw [if_neg hg, if_pos ht]
        exact countStart_tdOpTrace o cd i
      · simp [hg, ht, countOf]

theorem countStart_walkList (o : ScopeData) (cs : List Scope) (i : Nat) :
    countOf (Event.startScope i) (walkTraceList o cs) = 0 := by
  match cs with
  | [] => rfl
  | c :: rest =>
    rw [walkTraceList, countOf_append, countStart_walkList o rest i,
      countStart_walkChild o c i]

end

mutual

theorem countAct_walkChild (o : ScopeData) (c : Scope) (i : Nat) :
    countOf (Event.actionCall i) (walkTraceChild o c) = 0 := by
  match c with
  | .node cd ccs =>
    rw [walkTraceChild]
    by_cases hg : cd.isGroup = true
    · rw [if_pos hg]
      exact countAct_walkList o ccs i
    · by_cases ht : cd.hasTeardown = true
      · rw [if_neg hg, if_pos ht]
        exact countAct_tdOpTrace o cd i
      · simp [hg, ht, countOf]

theorem countAct_walkList (o : ScopeData) (cs : List Scope) (i : Nat) :
    countOf (Event.actionCall i) (walkTraceList o cs) = 0 := by
  match cs with
  | [] => rfl
  | c :: rest =>
    rw [walkTraceList, countOf_append, countAct_walkList o rest i, countAct_walkChild o c i]

end

mutual

theorem countTd_walkChild (o : ScopeData) (c : Scope) (a t : Nat) :
    countOf (Event.teardownCall a t) (walkTraceChild o c) =
      countOf (a, t) ((walkTdChild c).map (fun x => (o.sid, x))) := by
  match c with
  | .node cd ccs =>
    rw [walkTraceChild, walkTdChild]
    by_cases hg : cd.isGroup = true
    · rw [if_pos hg, if_pos hg]
      exact countTd_walkList o ccs a t
    · by_cases ht : cd.hasTeardown = true
      · rw [if_neg hg, if_pos ht, if_neg hg, if_pos ht]
        rw [countTd_tdOpTrace o cd a t]
        match htd : cd.teardown with
        | some _ => simp
        | none => simp
      · simp [hg, ht, countOf]

theorem countTd_walkList (o : ScopeData) (cs : List Scope) (a t : Nat) :
    countOf (Event.teardownCall a t) (walkTraceList o cs) =
      countOf (a, t) ((walkTdIds cs).map (fun x => (o.sid, x))) := by
  match cs with
  | [] => rfl
  | c :: rest =>
    rw [walkTraceList, walkTdIds, countOf_append, List.map_append, countOf_append,
      countTd_walkList o rest a t, countTd_walkChild o c a t]

end

theorem countStart_actTrace (d : ScopeData) (i : Nat) :
    countOf (Event.startScope i) (actTrace d) = 0 := by
  unfold actTrace
  by_cases ha : d.hasAction = true
  · match hact : d.action with
    | some .ok => simp [ha, hact, countOf]
    | some (.fail m) => simp [ha, hact, countOf]
    | none => simp [ha, hact, countOf]
  · simp [ha, countOf]

theorem countTd_actTrace (d : ScopeData) (a t : Nat) :
    countOf (Event.teardownCall a t) (actTrace d) = 0 := by
  unfold actTrace
  by_cases ha : d.hasAction = true
  · match hact : d.action with
    | some .ok => simp [ha, hact, countOf]
    | some (.fail m) => simp [ha, hact, countOf]
    | none => simp [ha, hact, countOf]
  · simp [ha, countOf]

theorem countAct_actTrace (d : ScopeData) (i : Nat) :
    countOf (Event.actionCall i) (actTrace d) =
      countOf i (if d.hasAction then
        (match d.action with
          | some _ => [d.sid]
          | none => ([] : List Nat))
        else []) := by
  unfold actTrace
  by_cases ha : d.hasAction = true
  · match hact : d.action with
    | some .ok =>
      simp only [ha, hact, if_true]
      by_cases h : d.sid = i <;> simp [countOf, h]
    | some (.fail m) =>
      simp only [ha, hact, if_true]
      by_cases h : d.sid = i <;> simp [countOf, h]
    | none => simp [ha, hact, countOf]
  · simp [ha, countOf]

mutual

theorem countStart_scopeTrace (s : Scope) (i : Nat) (hwf : wfLeaves s = true) :
    countOf (Event.startScope i) (scopeTrace s) = countOf i (scopeIds s) := by
  match s with
  | .node d cs =>
    simp only [wfLeaves, Bool.and_eq_true, Bool.or_eq_true] at hwf
    obtain ⟨hwf1, hwfl⟩ := hwf
    rw [scopeTrace, scopeIds]
    simp only [countOf, countOf_append]
    by_cases hg : d.isGroup = true
    · rw [if_pos hg, if_pos hg, countStart_scopeTraceList cs i hwfl,
        countStart_walkList d cs i]
      by_cases h : d.sid = i <;> simp [h]
    · have hcs : cs = [] := by
        rcases hwf1 with h | h
        · exact absurd h hg
        · simpa [List.isEmpty_iff] using h
      subst hcs
      rw [if_neg hg, if_neg hg, countStart_actTrace]
      have hphase : countOf (Event.startScope i)
          (if d.hasTeardown = true then tdOpTrace d d else []) = 0 := by
        by_cases ht : d.hasTeardown = true
        · rw [if_pos ht]; exact countStart_tdOpTrace d d i
        · simp [ht, countOf]
      rw [hphase]
      by_cases h : d.sid = i <;> simp [h, scopeIdsList, countOf]

theorem countStart_scopeTraceList (cs : List Scope) (i : Nat) (hwf : wfLeavesList cs = true) :
    countOf (Event.startScope i) (scopeTraceList cs) = countOf i (scopeIdsList cs) := by
  match cs with
  | [] => rfl
  | c :: rest =>
    simp only [wfLeavesList, Bool.and_eq_true] at hwf
    rw [scopeTraceList, scopeIdsList, countOf_append, countOf_append,
      countStart_scopeTrace c i hwf.1, countStart_scopeTraceList rest i hwf.2]

end

mutual

theorem countAct_scopeTrace (s : Scope) (i : Nat) (hwf : wfLeaves s = true) :
    countOf (Event.actionCall i) (scopeTrace s) = countOf i (actionIds s) := by
  match s with
  | .node d cs =>
    simp only [wfLeaves, Bool.and_eq_true, Bool.or_eq_true] at hwf
    obtain ⟨hwf1, hwfl⟩ := hwf
    rw [scopeTrace, actionIds]
    simp only [countOf, countOf_append]
    by_cases hg : d.isGroup = true
    · rw [if_pos hg, if_pos hg, if_pos hg, countAct_scopeTraceList cs i hwfl,
        countAct_walkList d cs i]
      simp
    · have hcs : cs = [] := by
        rcases hwf1 with h | h
        · exact absurd h hg
        · simpa [List.isEmpty_iff] using h
      subst hcs
      rw [if_neg hg, if_neg hg, if_neg hg, countAct_actTrace]
      have hphase : countOf (Event.actionCall i)
          (if d.hasTeardown = true then tdOpTrace d d else []) = 0 := by
        by_cases ht : d.hasTeardown = true
        · rw [if_pos ht]; exact countAct_tdOpTrace d d i
        · simp [ht, countOf]
      rw [hphase]
      simp

theorem countAct_scopeTraceList (cs : List Scope) (i : Nat) (hwf : wfLeavesList cs = true) :
    countOf (Event.actionCall i) (scopeTraceList cs) = countOf i (actionIdsList cs) := by
  match cs with
  | [] => rfl
  | c :: rest =>
    simp only [wfLeavesList, Bool.and_eq_true] at hwf
    rw [scopeTraceList, actionIdsList, countOf_append, countOf_append,
      countAct_scopeTrace c i hwf.1, countAct_scopeTraceList rest i hwf.2]

end

mutual

theorem countTd_scopeTrace (s : Scope) (a t : Nat) (hwf : wfLeaves s = true) :
    countOf (Event.teardownCall a t) (scopeTrace s) = countOf (a, t) (tdPairs s) := by
  match s with
  | .node d cs =>
    simp only [wfLeaves, Bool.and_eq_true, Bool.or_eq_true] at hwf
    obtain ⟨hwf1, hwfl⟩ := hwf
    rw [scopeTrace, tdPairs]
    simp only [countOf, countOf_append]
    by_cases hg : d.isGroup = true
    · rw [if_pos hg, if_pos hg, if_pos hg, countTd_scopeTraceList cs a t hwfl,
        countTd_walkList d cs a t, countOf_append]
      simp
    · rw [if_neg hg, if_neg hg, if_neg hg, countTd_actTrace]
      by_cases ht : d.hasTeardown = true
      · rw [if_pos ht, if_pos ht, countTd_tdOpTrace d d a t]
        simp
      · simp [ht, countOf]

theorem countTd_scopeTraceList (cs : List Scope) (a t : Nat) (hwf : wfLeavesList cs = true) :
    countOf (Event.teardownCall a t) (scopeTraceList cs) = countOf (a, t) (tdPairsList cs) := by
  match cs with
  | [] => rfl
  | c :: rest =>
    simp only [wfLeavesList, Bool.and_eq_true] at hwf
    rw [scopeTraceList, tdPairsList, countOf_append, countOf_append,
      countTd_scopeTrace c a t hwf.1, countTd_scopeTraceList rest a t hwf.2]

end

/-! ## Structure of the static views: sublists, nodup, subtrees -/

mutual

theorem actionIds_sublist (s : Scope) : (actionIds s).Sublist (scopeIds s) := by
  match s with
  | .node d cs =>
    rw [actionIds, scopeIds]
    by_cases hg : d.isGroup = true
    · rw [if_pos hg]
      exact (actionIdsList_sublist cs).trans (List.sublist_cons_self _ _)
    · rw [if_neg hg]
      by_cases ha : d.hasAction = true
      · rw [if_pos ha]
        match d.action with
        | some _ => exact (List.nil_sublist _).cons₂ d.sid
        | none => exact List.nil_sublist _
      · rw [if_neg ha]
        exact List.nil_sublist _

theorem actionIdsList_sublist (cs : List Scope) :
    (actionIdsList cs).Sublist (scopeIdsList cs) := by
  match cs with
  | [] => exact List.Sublist.refl _
  | c :: rest =>
    rw [actionIdsList, scopeIdsList]
    exact (actionIds_sublist c).append (actionIdsList_sublist rest)

end

mutual

theorem walkTdChild_sublist (c : Scope) : (walkTdChild c).Sublist (scopeIds c).reverse := by
  match c with
  | .node cd ccs =>
    rw [walkTdChild, scopeIds, List.reverse_cons]
    by_cases hg : cd.isGroup = true
    · rw [if_pos hg]
      exact (walkTdIds_sublist ccs).trans (List.sublist_append_left _ _)
    · rw [if_neg hg]
      by_cases ht : cd.hasTeardown = true
      · rw [if_pos ht]
        match cd.teardown with
        | some _ => exact List.sublist_append_right _ _
        | none => exact List.nil_sublist _
      · rw [if_neg ht]
        exact List.nil_sublist _

theorem walkTdIds_sublist (cs : List Scope) :
    (walkTdIds cs).Sublist (scopeIdsList cs).reverse := by
  match cs with
  | [] => exact List.Sublist.refl _
  | c :: rest =>
    rw [walkTdIds, scopeIdsList, List.reverse_append]
    exact (walkTdIds_sublist rest).append (walkTdChild_sublist c)

end

theorem walkTdIds_nodup (cs : List Scope) (h : (scopeIdsList cs).Nodup) :
    (walkTdIds cs).Nodup :=
  (walkTdIds_sublist cs).nodup (List.nodup_reverse.mpr h)

theorem walkTdIds_mem (cs : List Scope) (t : Nat) (h : t ∈ walkTdIds cs) :
    t ∈ scopeIdsList cs := by
  have := (walkTdIds_sublist cs).mem h
  simpa using this

mutual

theorem tdPairs_fst_mem (s : Scope) : ∀ p ∈ tdPairs s, p.1 ∈ scopeIds s := by
  match s with
  | .node d cs =>
    intro p hp
    rw [tdPairs] at hp
    rw [scopeIds]
    by_cases hg : d.isGroup = true
    · rw [if_pos hg] at hp
      rcases List.mem_append.mp hp with hp | hp
      · exact List.mem_cons_of_mem _ (tdPairsList_fst_mem cs p hp)
      · obtain ⟨t, _, hpt⟩ := List.mem_map.mp hp
        rw [← hpt]
        exact List.mem_cons_self _ _
    · rw [if_neg hg] at hp
      by_cases ht : d.hasTeardown = true
      · rw [if_pos ht] at hp
        match hmt : d.teardown with
        | some _ =>
          rw [hmt] at hp
          simp only [List.mem_singleton] at hp
          rw [hp]
          exact List.mem_cons_self _ _
        | none =>
          rw [hmt] at hp
          simp at hp
      · rw [if_neg ht] at hp
        simp at hp

theorem tdPairsList_fst_mem (cs : List Scope) :
    ∀ p ∈ tdPairsList cs, p.1 ∈ scopeIdsList cs := by
  match cs with
  | [] => intro p hp; simp [tdPairsList] at hp
  | c :: rest =>
    intro p hp
    rw [tdPairsList] at hp
    rw [scopeIdsList]
    rcases List.mem_append.mp hp with hp | hp
    · exact List.mem_append.mpr (Or.inl (tdPairs_fst_mem c p hp))
    · exact List.mem_append.mpr (Or.inr (tdPairsList_fst_mem rest p hp))

end

mutual

theorem tdPairs_nodup (s : Scope) (h : (scopeIds s).Nodup) : (tdPairs s).Nodup := by
  match s with
  | .node d cs =>
    rw [scopeIds, List.nodup_cons] at h
    obtain ⟨hdn, hndl⟩ := h
    rw [tdPairs]
    by_cases hg : d.isGroup = true
    · rw [if_pos hg]
      refine List.Nodup.append (tdPairsList_nodup cs hndl) ?_ ?_
      · exact (walkTdIds_nodup cs hndl).map
          (fun a b hab => congrArg Prod.snd hab)
      · intro p hp hp2
        obtain ⟨t, _, hpt⟩ := List.mem_map.mp hp2
        have h1 : p.1 ∈ scopeIdsList cs := tdPairsList_fst_mem cs p hp
        rw [← hpt] at h1
        exact hdn h1
    · rw [if_neg hg]
      by_cases ht : d.hasTeardown = true
      · rw [if_pos ht]
        match d.teardown with
        | some _ => simp
        | none => simp
      · rw [if_neg ht]
        simp

theorem tdPairsList_nodup (cs : List Scope) (h : (scopeIdsList cs).Nodup) :
    (tdPairsList cs).Nodup := by
  match cs with
  | [] => simp [tdPairsList]
  | c :: rest =>
    rw [scopeIdsList, List.nodup_append] at h
    obtain ⟨h1, h2, hdisj⟩ := h
    rw [tdPairsList]
    refine List.Nodup.append (tdPairs_nodup c h1) (tdPairsList_nodup rest h2) ?_
    intro p hp hp2
    exact hdisj (tdPairs_fst_mem c p hp) (tdPairsList_fst_mem rest p hp2)

end

theorem subscopes_self (s : Scope) : s ∈ subscopes s := by
  match s with
  | .node d cs =>
    rw [subscopes]
    exact List.mem_cons_self _ _

mutual

theorem subscopes_trans (t : Scope) :
    ∀ s ∈ subscopes t, ∀ u ∈ subscopes s, u ∈ subscopes t := by
  match t with
  | .node d cs =>
    intro s hs u hu
    rw [subscopes] at hs ⊢
    rcases List.mem_cons.mp hs with hs | hs
    · subst hs
      rw [subscopes] at hu
      exact hu
    · exact List.mem_cons_of_mem _ (subscopesList_trans cs s hs u hu)

theorem subscopesList_trans (cs : List Scope) :
    ∀ s ∈ subscopesList cs, ∀ u ∈ subscopes s, u ∈ subscopesList cs := by
  match cs with
  | [] => intro s hs; simp [subscopesList] at hs
  | c :: rest =>
    intro s hs u hu
    rw [subscopesList] at hs ⊢
    rcases List.mem_append.mp hs with hs | hs
    · exact List.mem_append.mpr (Or.inl (subscopes_trans c s hs u hu))
    · exact List.mem_append.mpr (Or.inr (subscopesList_trans rest s hs u hu))

end

theorem mem_subscopesList_of_mem (cs : List Scope) : ∀ c ∈ cs, c ∈ subscopesList cs := by
  induction cs with
  | nil => intro c hc; simp at hc
  | cons x rest ih =>
    intro c hc
    rw [subscopesList]
    rcases List.mem_cons.mp hc with hc | hc
    · exact List.mem_append.mpr (Or.inl (hc ▸ subscopes_self c))
    · exact List.mem_append.mpr (Or.inr (ih c hc))

mutual

theorem subscopes_actionIds_subset (t : Scope) (hwf : wfLeaves t = true) :
    ∀ s ∈ subscopes t, ∀ i ∈ actionIds s, i ∈ actionIds t := by
  match t with
  | .node d cs =>
    intro s hs i hi
    simp only [wfLeaves, Bool.and_eq_true, Bool.or_eq_true] at hwf
    obtain ⟨hwf1, hwfl⟩ := hwf
    rw [subscopes] at hs
    rcases List.mem_cons.mp hs with hs | hs
    · rw [← hs]
      exact hi
    · by_cases hg : d.isGroup = true
      · rw [actionIds, if_pos hg]
        exact subscopesList_actionIds_subset cs hwfl s hs i hi
      · rcases hwf1 with h | h
        · exact absurd h hg
        · simp only [List.isEmpty_iff] at h
          rw [h] at hs
          simp [subscopesList] at hs

theorem subscopesList_actionIds_subset (cs : List Scope) (hwf : wfLeavesList cs = true) :
    ∀ s ∈ subscopesList cs, ∀ i ∈ actionIds s, i ∈ actionIdsList cs := by
  match cs with
  | [] => intro s hs; simp [subscopesList] at hs
  | c :: rest =>
    intro s hs i hi
    simp only [wfLeavesList, Bool.and_eq_true] at hwf
    rw [subscopesList] at hs
    rw [actionIdsList]
    rcases List.mem_append.mp hs with hs | hs
    · exact List.mem_append.mpr (Or.inl (subscopes_actionIds_subset c hwf.1 s hs i hi))
    · exact List.mem_append.mpr (Or.inr (subscopesList_actionIds_subset rest hwf.2 s hs i hi))

end

mutual

theorem subscopes_tdPairs_subset (t : Scope) (hwf : wfLeaves t = true) :
    ∀ s ∈ subscopes t, ∀ p ∈ tdPairs s, p ∈ tdPairs t := by
  match t with
  | .node d cs =>
    intro s hs p hp
    simp only [wfLeaves, Bool.and_eq_true, Bool.or_eq_true] at hwf
    obtain ⟨hwf1, hwfl⟩ := hwf
    rw [subscopes] at hs
    rcases List.mem_cons.mp hs with hs | hs
    · rw [← hs]
      exact hp
    · by_cases hg : d.isGroup = true
      · rw [tdPairs, if_pos hg]
        exact List.mem_append.mpr
          (Or.inl (subscopesList_tdPairs_subset cs hwfl s hs p hp))
      · rcases hwf1 with h | h
        · exact absurd h hg
        · simp only [List.isEmpty_iff] at h
          rw [h] at hs
          simp [subscopesList] at hs

theorem subscopesList_tdPairs_subset (cs : List Scope) (hwf : wfLeavesList cs = true) :
    ∀ s ∈ subscopesList cs, ∀ p ∈ tdPairs s, p ∈ tdPairsList cs := by
  match cs with
  | [] => intro s hs; simp [subscopesList] at hs
  | c :: rest =>
    intro s hs p hp
    simp only [wfLeavesList, Bool.and_eq_true] at hwf
    rw [subscopesList] at hs
    rw [tdPairsList]
    rcases List.mem_append.mp hs with hs | hs
    · exact List.mem_append.mpr (Or.inl (subscopes_tdPairs_subset c hwf.1 s hs p hp))
    · exact List.mem_append.mpr (Or.inr (subscopesList_tdPairs_subset rest hwf.2 s hs p hp))

end

mutual

theorem subscopes_scopeIds_subset (t : Scope) :
    ∀ s ∈ subscopes t, ∀ i ∈ scopeIds s, i ∈ scopeIds t := by
  match t with
  | .node d cs =>
    intro s hs i hi
    rw [subscopes] at hs
    rcases List.mem_cons.mp hs with hs | hs
    · rw [← hs]
      exact hi
    · rw [scopeIds]
      exact List.mem_cons_of_mem _ (subscopesList_scopeIds_subset cs s hs i hi)

theorem subscopesList_scopeIds_subset (cs : List Scope) :
    ∀ s ∈ subscopesList cs, ∀ i ∈ scopeIds s, i ∈ scopeIdsList cs := by
  match cs with
  | [] => intro s hs; simp [subscopesList] at hs
  | c :: rest =>
    intro s hs i hi
    rw [subscopesList] at hs
    rw [scopeIdsList]
    rcases List.mem_append.mp hs with hs | hs
    · exact List.mem_append.mpr (Or.inl (subscopes_scopeIds_subset c s hs i hi))
    · exact List.mem_append.mpr (Or.inr (subscopesList_scopeIds_subset rest s hs i hi))

end

/-! ## Extracting teardown invocations from traces -/

theorem tdCallsOf_append (l1 l2 : List Event) :
    tdCallsOf (l1 ++ l2) = tdCallsOf l1 ++ tdCallsOf l2 :=
  List.filterMap_append ..

theorem tdCallsOf_tdOpTrace (o td : ScopeData) :
    tdCallsOf (tdOpTrace o td) =
      (match td.teardown with
        | some _ => [(o.sid, td.sid)]
        | none => ([] : List (Nat × Nat))) := by
  match htd : td.teardown with
  | none => simp [tdOpTrace, htd, tdCallsOf]
  | some .ok => simp [tdOpTrace, htd, tdCallsOf]
  | some (.fail m) => simp [tdOpTrace, htd, tdCallsOf]

mutual

theorem tdCallsOf_walkTraceChild (o : ScopeData) (c : Scope) :
    tdCallsOf (walkTraceChild o c) = (walkTdChild c).map (fun x => (o.sid, x)) := by
  match c with
  | .node cd ccs =>
    rw [walkTraceChild, walkTdChild]
    by_cases hg : cd.isGroup = true
    · rw [if_pos hg, if_pos hg]
      exact tdCallsOf_walkTraceList o ccs
    · by_cases ht : cd.hasTeardown = true
      · rw [if_neg hg, if_pos ht, if_neg hg, if_pos ht, tdCallsOf_tdOpTrace]
        match cd.teardown with
        | some _ => simp
        | none => simp
      · simp [hg, ht, tdCallsOf]

theorem tdCallsOf_walkTraceList (o : ScopeData) (cs : List Scope) :
    tdCallsOf (walkTraceList o cs) = (walkTdIds cs).map (fun x => (o.sid, x)) := by
  match cs with
  | [] => rfl
  | c :: rest =>
    rw [walkTraceList, walkTdIds, tdCallsOf_append, List.map_append,
      tdCallsOf_walkTraceList o rest, tdCallsOf_walkTraceChild o c]

end

theorem tdCallsOf_tdOpTraceSt (sts : List (Nat × JobScopeStatus)) (o td : ScopeData)
    (a t : Nat) (h : (a, t) ∈ tdCallsOf (tdOpTraceSt sts o td)) :
    a = o.sid ∧ t = td.sid ∧
      ¬(getStatusOf sts td.sid = JobScopeStatus.unknown ∨
        getStatusOf sts td.sid = JobScopeStatus.skipped) := by
  unfold tdOpTraceSt at h
  by_cases hg : getStatusOf sts td.sid = JobScopeStatus.unknown ∨
      getStatusOf sts td.sid = JobScopeStatus.skipped
  · rw [if_pos hg] at h
    simp [tdCallsOf] at h
  · rw [if_neg hg] at h
    rw [tdCallsOf_tdOpTrace] at h
    match htd : td.teardown with
    | some _ =>
      rw [htd] at h
      simp only [List.mem_singleton, Prod.mk.injEq] at h
      exact ⟨h.1, h.2, hg⟩
    | none =>
      rw [htd] at h
      simp at h

mutual

theorem walkTraceStChild_calls (sts : List (Nat × JobScopeStatus)) (o : ScopeData)
    (c : Scope) (a t : Nat) (h : (a, t) ∈ tdCallsOf (walkTraceStChild sts o c)) :
    a = o.sid ∧
      ¬(getStatusOf sts t = JobScopeStatus.unknown ∨
        getStatusOf sts t = JobScopeStatus.skipped) := by
  match c with
  | .node cd ccs =>
    rw [walkTraceStChild] at h
    by_cases hg : cd.isGroup = true
    · rw [if_pos hg] at h
      exact walkTraceStList_calls sts o ccs a t h
    · by_cases ht : cd.hasTeardown = true
      · rw [if_neg hg, if_pos ht] at h
        obtain ⟨h1, h2, h3⟩ := tdCallsOf_tdOpTraceSt sts o cd a t h
        exact ⟨h1, h2 ▸ h3⟩
      · rw [if_neg hg, if_neg ht] at h
        simp [tdCallsOf] at h

theorem walkTraceStList_calls (sts : List (Nat × JobScopeStatus)) (o : ScopeData)
    (cs : List Scope) (a t : Nat) (h : (a, t) ∈ tdCallsOf (walkTraceStList sts o cs)) :
    a = o.sid ∧
      ¬(getStatusOf sts t = JobScopeStatus.unknown ∨
        getStatusOf sts t = JobScopeStatus.skipped) := by
  match cs with
  | [] => simp [walkTraceStList, tdCallsOf] at h
  | c :: rest =>
    rw [walkTraceStList, tdCallsOf_append] at h
    rcases List.mem_append.mp h with h | h
    · exact walkTraceStList_calls sts o rest a t h
    · exact walkTraceStChild_calls sts o c a t h

end

theorem actualTeardownPieces_append (l1 l2 : List Event) (i : Nat) :
    actualTeardownPieces (l1 ++ l2) i =
      actualTeardownPieces l1 i ++ actualTeardownPieces l2 i :=
  List.filterMap_append ..

theorem actualTeardownPieces_tdOpTrace (o td : ScopeData) (spec : CallSpec)
    (htd : td.teardown = some spec) :
    actualTeardownPieces (tdOpTrace o td) td.sid = [TeardownPiece.own] := by
  match spec with
  | .ok => simp [tdOpTrace, htd, actualTeardownPieces]
  | .fail m => simp [tdOpTrace, htd, actualTeardownPieces]

/-! ## Store lemmas (values.py semantics) -/

theorem getVal_map_set {α : Type} (s : Store α) (k : String) (v : α)
    (h : List.any s (fun p => p.1 = k) = true) :
    getVal (s.map (fun p => if p.1 = k then (k, v) else p)) k = some v := by
  induction s with
  | nil => simp at h
  | cons p rest ih =>
    simp only [List.any_cons, Bool.or_eq_true, decide_eq_true_eq] at h
    by_cases hp : p.1 = k
    · simp [getVal, hp]
    · rcases h with h | h
      · exact absurd h hp
      · rw [List.map_cons, if_neg hp]
        rw [getVal, List.find?_cons_of_neg _ (by simpa using hp)]
        exact ih (by simpa [List.any_eq_true, decide_eq_true_eq] using h)

theorem getVal_append_single {α : Type} (s : Store α) (k : String) (v : α)
    (h : List.any s (fun p => p.1 = k) = false) :
    getVal (s ++ [(k, v)]) k = some v := by
  induction s with
  | nil => simp [getVal]
  | cons p rest ih =>
    simp only [List.any_cons, Bool.or_eq_false_iff, decide_eq_false_iff_not] at h
    rw [List.cons_append, getVal, List.find?_cons_of_neg _ (by simpa using h.1)]
    exact ih (by simpa [List.any_eq_false, decide_eq_false_iff_not] using h.2)

theorem getVal_setVal_self {α : Type} (s : Store α) (k : String) (v : α) :
    getVal (setVal s k v) k = some v := by
  unfold setVal
  by_cases hany : List.any s (fun p => p.1 = k) = true
  · rw [if_pos hany]
    exact getVal_map_set s k v hany
  · rw [if_neg hany]
    exact getVal_append_single s k v (eq_false_of_ne_true hany)

theorem hasValue_of_getVal {α : Type} {s : Store α} {k : String} {v : α}
    (h : getVal s k = some v) : hasValue s k = true := by
  induction s with
  | nil => simp [getVal] at h
  | cons p rest ih =>
    by_cases hp : p.1 = k
    · simp [hasValue, hp]
    · rw [getVal, List.find?_cons_of_neg _ (by simpa using hp)] at h
      simp only [hasValue, List.any_cons, Bool.or_eq_true, decide_eq_true_eq]
      exact Or.inr (by simpa [hasValue] using ih h)

theorem find?_eq_none_of_hasValue_false {α : Type} {s : Store α} {k : String}
    (h : hasValue s k = false) : List.find? (fun p => p.1 = k) s = none := by
  rw [List.find?_eq_none]
  intro p hp
  simp only [hasValue, List.any_eq_false, decide_eq_false_iff_not] at h
  simpa using h p hp

theorem getVal_eq_none_of_hasValue_false {α : Type} {s : Store α} {k : String}
    (h : hasValue s k = false) : getVal s k = none := by
  rw [getVal, find?_eq_none_of_hasValue_false h]
  rfl

/-! ## The claims -/

/-- C10: `Values.unset` on an absent key raises `KeyError` (not a no-op);
therefore `Values.set` with a value-less `ValueProvider` or the `NoValue`
sentinel on an absent key also raises `KeyError` (it delegates to
`unset`); while `Values.get` on an absent key raises `NoValueError`, not
`KeyError`. -/
theorem claim_C10 {α : Type} (s : Store α) (k : String) (h : hasValue s k = false) :
    valuesUnset s k = .error (.keyError k) ∧
    valuesSet s k (SetArg.provider none) = .error (.keyError k) ∧
    valuesSet s k SetArg.noValueSentinel = .error (.keyError k) ∧
    valuesGet s k =
      .error (.noValueError ("Values has no value associated with key '" ++ k ++ "'")) := by
  have hu : valuesUnset s k = .error (.keyError k) := by
    unfold valuesUnset
    rw [if_neg]
    intro hc
    rw [show List.any s (fun p => p.1 = k) = hasValue s k from rfl, h] at hc
    exact Bool.false_ne_true hc
  refine ⟨hu, ?_, ?_, ?_⟩
  · unfold valuesSet
    exact hu
  · unfold valuesSet
    exact hu
  · unfold valuesGet
    rw [find?_eq_none_of_hasValue_false h]

/-- C10 witness: the store `[("a", 1)]` has no key `"b"`. -/
theorem claim_C10_witness :
    valuesUnset [("a", (1 : Nat))] "b" = .error (.keyError "b") ∧
    valuesSet [("a", (1 : Nat))] "b" (SetArg.provider none) = .error (.keyError "b") ∧
    valuesSet [("a", (1 : Nat))] "b" SetArg.noValueSentinel = .error (.keyError "b") ∧
    valuesGet [("a", (1 : Nat))] "b" =
      .error (.noValueError ("Values has no value associated with key '" ++ "b" ++ "'")) :=
  claim_C10 [("a", (1 : Nat))] "b" (by decide)

/-- C8 counterexample: with scope stack `["job"]`, store `{"job.key": 7}`
(no bare `"key"`), and `default=0`, the probe `"job.key"` succeeds with 7,
yet `context_value.__call__` returns the default 0 and writes it back —
the claim says the first present probed value (7) is returned and the
default is used only when no probed key is present. -/
theorem claim_C8_counterexample :
    contextValueCall "key" none (some (0 : Nat)) ["job"] [("job.key", 7)] =
      CVResult.value 0 [("job.key", 7), ("key", 0)] ∧
    (probeKeys ["job"] "key" ++ ["key"]).findSome?
      (fun k => getVal [("job.key", (7 : Nat))] k) = some 7 ∧
    (0 : Nat) ≠ 7 := by
  refine ⟨?_, ?_, by decide⟩ <;> decide

/-- C8 (amended): the probe order is most-specific scoped key first, then
the bare key — but whenever the *bare* key is absent and a default was
supplied, the default branch wins even if a scoped probe succeeded: the
default is returned (uncoerced) and written back to the bare key.  Only
otherwise is the first present probed value returned (then the bare key's
value; then `NoValueError`).  After the write-back the bare key holds the
default, so a later call that matches no scoped key returns it from any
scope stack. -/
theorem claim_C8 {α : Type} (key : String) (coercer : Option (α → α))
    (scopes : List String) (store : Store α) :
    (∀ dv, hasValue store key = false →
      contextValueCall key coercer (some dv) scopes store =
        .value dv (setVal store key dv)) ∧
    (∀ default v, (hasValue store key = true ∨ default = none) →
      (probeKeys scopes key).findSome? (fun k => getVal store k) = some v →
      contextValueCall key coercer default scopes store =
        .value (applyCoercer coercer v) store) ∧
    (∀ default v, (hasValue store key = true ∨ default = none) →
      (probeKeys scopes key).findSome? (fun k => getVal store k) = none →
      getVal store key = some v →
      contextValueCall key coercer default scopes store =
        .value (applyCoercer coercer v) store) ∧
    (∀ dv, getVal (setVal store key dv) key = some dv ∧
      hasValue (setVal store key dv) key = true) ∧
    (∀ dv (scopes2 : List String),
      (probeKeys scopes2 key).findSome? (fun k2 => getVal (setVal store key dv) k2) = none →
      contextValueCall key coercer (some dv) scopes2 (setVal store key dv) =
        .value (applyCoercer coercer dv) (setVal store key dv)) := by
  have hset : ∀ dv, getVal (setVal store key dv) key = some dv :=
    fun dv => getVal_setVal_self store key dv
  have hmain : ∀ (store' : Store α) (default : Option α) (scopes' : List String),
      (hasValue store' key = true ∨ default = none) →
      contextValueCall key coercer default scopes' store' =
        (match (probeKeys scopes' key).findSome? (fun k => getVal store' k) with
          | some v => .value (applyCoercer coercer v) store'
          | none =>
            match getVal store' key with
            | some v => .value (applyCoercer coercer v) store'
            | none => .noValueError (cvErrorMsg key (probeKeys scopes' key))) := by
    intro store' default scopes' hcase
    unfold contextValueCall
    rcases hcase with hcase | hcase
    · rw [hcase]
    · rw [hcase]
      cases hv : hasValue store' key <;> rfl
  refine ⟨?_, ?_, ?_, ?_, ?_⟩
  · intro dv hb
    unfold contextValueCall
    rw [hb]
  · intro default v hcase hfind
    rw [hmain store default scopes hcase, hfind]
  · intro default v hcase hfind hbare
    rw [hmain store default scopes hcase, hfind, hbare]
  · intro dv
    exact ⟨hset dv, hasValue_of_getVal (hset dv)⟩
  · intro dv scopes2 hfind
    rw [hmain (setVal store key dv) (some dv) scopes2
      (Or.inl (hasValue_of_getVal (hset dv))), hfind, hset dv]

/-- C8 witness: with store `{"key": 9}` (bare key present, no default
conflict) the scoped probe `"job.key"` is absent and the bare value 9 is
returned; and the default write-back of the counterexample's store
memoizes 0 under `"key"`. -/
theorem claim_C8_witness :
    ((hasValue [("key", (9 : Nat))] "key" = true ∨ (none : Option Nat) = none) ∧
      (probeKeys ["job"] "key").findSome? (fun k => getVal [("key", (9 : Nat))] k) = none ∧
      getVal [("key", (9 : Nat))] "key" = some 9) ∧
    contextValueCall "key" none (none : Option Nat) ["job"] [("key", 9)] =
      CVResult.value 9 [("key", 9)] := by
  have h := (claim_C8 "key" (none : Option (Nat → Nat)) ["job"] [("key", (9 : Nat))]).2.2.1
  refine ⟨⟨by decide, by decide, by decide⟩, ?_⟩
  have := h none 9 (by decide) (by decide) (by decide)
  simpa [applyCoercer] using this

/-- C2: a conditional scope with neither `run_if` nor `skip_if` is decided
by the default condition `job_failing`: it is skipped exactly when at
least one error has been recorded anywhere in the run at decision time,
with the fixed reason "Job has failures."; with no recorded errors it is
not skipped. -/
theorem claim_C2 (st : RunState) (d : ScopeData) (cs : List Scope)
    (hcond : d.isConditional = true) (hr : d.runIf = none) (hs : d.skipIf = none) :
    shouldSkip st d = (!(getErrorsFor st none).isEmpty, "Job has failures.") ∧
    (getErrorsFor st none = [] → (shouldSkip st d).1 = false) ∧
    (getErrorsFor st none ≠ [] → (d.isGroup || d.hasAction || d.hasTeardown) = true →
      runScope st (.node d cs) = (skipScopeOp st d.sid (some "Job has failures."), none)) := by
  have h1 : shouldSkip st d = (!(getErrorsFor st none).isEmpty, "Job has failures.") := by
    simp [shouldSkip, hcond, hr, hs, resolveConditional]
  refine ⟨h1, ?_, ?_⟩
  · intro he
    rw [h1]
    simp [he]
  · intro he hcap
    simp only [Bool.or_eq_true] at hcap
    have hc : (!d.isGroup && !d.hasAction && !d.hasTeardown) = false := by
      rcases hcap with (h | h) | h <;> simp [h]
    have hemp : (getErrorsFor st none).isEmpty = false := by
      simpa [List.isEmpty_iff] using he
    rw [runScope]
    simp only [hc, Bool.false_eq_true, if_false]
    simp [h1, hemp]

/-- C2 witness: one error recorded under the root path skips the scope. -/
theorem claim_C2_witness :
    shouldSkip (⟨[], [], [], [([0], ["boom"])], []⟩ : RunState)
      ⟨2, "b", "Step", false, true, some .ok, false, none, true, none, none⟩ =
      (true, "Job has failures.") ∧
    runScope (⟨[], [], [], [([0], ["boom"])], []⟩ : RunState)
      (.node ⟨2, "b", "Step", false, true, some .ok, false, none, true, none, none⟩ []) =
      (skipScopeOp (⟨[], [], [], [([0], ["boom"])], []⟩ : RunState) 2
        (some "Job has failures."), none) := by
  have h := claim_C2 (⟨[], [], [], [([0], ["boom"])], []⟩ : RunState)
    ⟨2, "b", "Step", false, true, some .ok, false, none, true, none, none⟩ [] rfl rfl rfl
  exact ⟨h.1.trans (by decide), h.2.2 (by decide) (by decide)⟩

/-- C3: with both conditions set, `run_if` is evaluated first; if it
resolves false its reason decides the skip and the result is the same for
*every* `skip_if` (it is never consulted); if it resolves true, `skip_if`'s
verdict and reason decide.  A plain boolean normalizes to `(bool, "")`, so
`run_if=True, skip_if=True` skips the scope: the runner only records the
SKIPPED status and the skip event — it never enters, runs the action, or
tears down. -/
theorem claim_C3 (st : RunState) (d : ScopeData) (rI sI : Cond)
    (hcond : d.isConditional = true) (hr : d.runIf = some rI) (hsk : d.skipIf = some sI) :
    (∀ b, resolveConditional st (Cond.boolLit b) = (b, "")) ∧
    (∀ r, resolveConditional st rI = (false, r) → shouldSkip st d = (true, r)) ∧
    (∀ r, resolveConditional st rI = (true, r) → shouldSkip st d = resolveConditional st sI) ∧
    (rI = Cond.boolLit true → sI = Cond.boolLit true →
      ∀ cs : List Scope, (d.isGroup || d.hasAction || d.hasTeardown) = true →
        runScope st (.node d cs) = (skipScopeOp st d.sid none, none) ∧
        getStatus (skipScopeOp st d.sid none) d.sid = JobScopeStatus.skipped ∧
        (skipScopeOp st d.sid none).trace = st.trace ++ [Event.skipScope d.sid none]) := by
  refine ⟨fun b => rfl, ?_, ?_, ?_⟩
  · intro r hres
    simp [shouldSkip, hcond, hr, hsk, hres]
  · intro r hres
    simp [shouldSkip, hcond, hr, hsk, hres]
  · intro hrI hsI cs hcap
    subst hrI
    subst hsI
    have hss : shouldSkip st d = (true, "") := by
      simp [shouldSkip, hcond, hr, hsk, resolveConditional]
    simp only [Bool.or_eq_true] at hcap
    have hc : (!d.isGroup && !d.hasAction && !d.hasTeardown) = false := by
      rcases hcap with (h | h) | h <;> simp [h]
    refine ⟨?_, ?_, ?_⟩
    · rw [runScope]
      simp only [hc, Bool.false_eq_true, if_false]
      simp [hss]
    · show getStatusOf ((d.sid, JobScopeStatus.skipped) :: st.statuses) d.sid = _
      rw [getStatusOf_cons_self]
    · rfl

/-- C3 witness: `run_if` resolving `(False, "nope")` skips with that
reason for any `skip_if`; `run_if=True, skip_if=True` only records SKIPPED. -/
theorem claim_C3_witness :
    shouldSkip initState
      ⟨3, "s", "Step", false, true, some .ok, false, none, true,
        some (.pairLit false "nope"), some (.boolLit true)⟩ = (true, "nope") ∧
    runScope initState
      (.node ⟨4, "t", "Step", false, true, some .ok, false, none, true,
        some (.boolLit true), some (.boolLit true)⟩ []) =
      (skipScopeOp initState 4 none, none) := by
  constructor
  · exact (claim_C3 initState
      ⟨3, "s", "Step", false, true, some .ok, false, none, true,
        some (.pairLit false "nope"), some (.boolLit true)⟩
      (.pairLit false "nope") (.boolLit true) rfl rfl rfl).2.1 "nope" rfl
  · exact ((claim_C3 initState
      ⟨4, "t", "Step", false, true, some .ok, false, none, true,
        some (.boolLit true), some (.boolLit true)⟩
      (.boolLit true) (.boolLit true) rfl rfl rfl).2.2.2 rfl rfl [] (by decide)).1

/-- C5 counterexample: a run of a single action+teardown scope with an
ad-hoc callback (id 99) registered for it via `add_teardown` invokes only
the scope's own teardown; the spec's merged delegate would also invoke the
registered callback.  `JobRunnerImpl._run_teardown` calls
`teardown.teardown(context)` directly and never consults the registry
(which `JobContextImpl` does not even implement). -/
theorem claim_C5_counterexample :
    actualTeardownPieces ((runJob initState
        (.node ⟨1, "s", "Step", false, true, some .ok, true, some .ok, false,
          none, none⟩ [])).1.trace) 1 = [TeardownPiece.own] ∧
    specCombinedTeardown (addTeardown [] 1 99)
        ⟨1, "s", "Step", false, true, some .ok, true, some .ok, false, none, none⟩ =
      [TeardownPiece.adhoc 99, TeardownPiece.own] ∧
    ([TeardownPiece.own] : List TeardownPiece) ≠
      [TeardownPiece.adhoc 99, TeardownPiece.own] := by
  refine ⟨?_, ?_, by decide⟩ <;> decide

/-- C5 (amended): for a scope that ran, `_run_teardown` invokes exactly the
scope's own `teardown` attribute, once, inside its section — independent of
any ad-hoc registrations (the runner's definitions take no registry at
all): the appended events are `tdOpTrace` and the only invoked teardown
piece is `own`. -/
theorem claim_C5 (st : RunState) (o td : ScopeData) (spec : CallSpec)
    (htd : td.teardown = some spec)
    (hran : ¬(getStatus st td.sid = JobScopeStatus.unknown ∨
      getStatus st td.sid = JobScopeStatus.skipped)) :
    runTeardownOp st o td = { st with trace := st.trace ++ tdOpTrace o td } ∧
    actualTeardownPieces (runTeardownOp st o td).trace td.sid =
      actualTeardownPieces st.trace td.sid ++ [TeardownPiece.own] ∧
    countOf (Event.teardownCall o.sid td.sid) (tdOpTrace o td) = 1 := by
  have h1 : runTeardownOp st o td = { st with trace := st.trace ++ tdOpTrace o td } := by
    rw [runTeardownOp_eq, tdOpTraceSt_ran _ _ _ hran]
  refine ⟨h1, ?_, ?_⟩
  · rw [h1]
    show actualTeardownPieces (st.trace ++ tdOpTrace o td) td.sid = _
    rw [actualTeardownPieces_append, actualTeardownPieces_tdOpTrace o td spec htd]
  · rw [countTd_tdOpTrace, htd]
    simp [countOf]

/-- C5 witness: a RUNNING scope's own teardown is invoked exactly once. -/
theorem claim_C5_witness :
    runTeardownOp (⟨[], [], [(7, JobScopeStatus.running)], [], []⟩ : RunState)
      ⟨0, "g", "Job", true, false, none, false, none, false, none, none⟩
      ⟨7, "s", "Step", false, false, none, true, some .ok, false, none, none⟩ =
      { (⟨[], [], [(7, JobScopeStatus.running)], [], []⟩ : RunState) with
        trace := [] ++ tdOpTrace
          ⟨0, "g", "Job", true, false, none, false, none, false, none, none⟩
          ⟨7, "s", "Step", false, false, none, true, some .ok, false, none, none⟩ } :=
  (claim_C5 (⟨[], [], [(7, JobScopeStatus.running)], [], []⟩ : RunState)
    ⟨0, "g", "Job", true, false, none, false, none, false, none, none⟩
    ⟨7, "s", "Step", false, false, none, true, some .ok, false, none, none⟩
    .ok rfl (by decide)).1

/-- C6: a scope whose recorded status is UNKNOWN or SKIPPED never has its
teardown callable invoked: tearing it down directly (the leaf case) only
emits the skip-detail message and adds no teardown invocation, and no
group-teardown walk over any children list invokes it either. -/
theorem claim_C6 (st : RunState) (o td : ScopeData)
    (h : getStatus st td.sid = JobScopeStatus.unknown ∨
      getStatus st td.sid = JobScopeStatus.skipped) :
    runTeardownOp st o td = addEvent st (.detailSkipTeardown o.sid td.sid) ∧
    tdCallsOf (runTeardownOp st o td).trace = tdCallsOf st.trace ∧
    (∀ (cs : List Scope) (a : Nat),
      (a, td.sid) ∈ tdCallsOf ((runGroupTeardownList st o cs).trace) →
      (a, td.sid) ∈ tdCallsOf st.trace) := by
  have h1 : runTeardownOp st o td = addEvent st (.detailSkipTeardown o.sid td.sid) := by
    unfold runTeardownOp
    rw [if_pos h]
  refine ⟨h1, ?_, ?_⟩
  · rw [h1]
    show tdCallsOf (st.trace ++ [Event.detailSkipTeardown o.sid td.sid]) = _
    rw [tdCallsOf_append]
    simp [tdCallsOf]
  · intro cs a hmem
    rw [runGroupTeardownList_eq] at hmem
    rw [show ({ st with trace := st.trace ++ walkTraceStList st.statuses o cs } :
      RunState).trace = st.trace ++ walkTraceStList st.statuses o cs from rfl,
      tdCallsOf_append] at hmem
    rcases List.mem_append.mp hmem with hm | hm
    · exact hm
    · exact absurd h (walkTraceStList_calls st.statuses o cs a td.sid hm).2

/-- C6 witness: a SKIPPED scope's teardown is not invoked. -/
theorem claim_C6_witness :
    runTeardownOp (⟨[], [], [(5, JobScopeStatus.skipped)], [], []⟩ : RunState)
      ⟨0, "g", "Job", true, false, none, false, none, false, none, none⟩
      ⟨5, "s", "Step", false, false, none, true, some .ok, false, none, none⟩ =
      addEvent (⟨[], [], [(5, JobScopeStatus.skipped)], [], []⟩ : RunState)
        (.detailSkipTeardown 0 5) :=
  (claim_C6 (⟨[], [], [(5, JobScopeStatus.skipped)], [], []⟩ : RunState)
    ⟨0, "g", "Job", true, false, none, false, none, false, none, none⟩
    ⟨5, "s", "Step", false, false, none, true, some .ok, false, none, none⟩
    (by decide)).1

/-- C7: `_run_group_teardown` only appends events; when every scope under
the walked children ran, the teardown invocations it appends are exactly
the reverse-declaration-order depth-first walk (`walkTdIds`), each
teardown-capable descendant exactly once (under distinct ids); in
particular for children `[A, B]` that both implement teardown and both
ran, the invocations on the group's exit are `B` then `A`. -/
theorem claim_C7 (st : RunState) (o : ScopeData) (cs : List Scope) :
    runGroupTeardownList st o cs =
      { st with trace := st.trace ++ walkTraceStList st.statuses o cs } ∧
    ((∀ i ∈ scopeIdsList cs, ¬(getStatus st i = JobScopeStatus.unknown ∨
        getStatus st i = JobScopeStatus.skipped)) →
      tdCallsOf ((runGroupTeardownList st o cs).trace) =
        tdCallsOf st.trace ++ (walkTdIds cs).map (fun t => (o.sid, t))) ∧
    ((scopeIdsList cs).Nodup → ∀ t ∈ walkTdIds cs, countOf t (walkTdIds cs) = 1) ∧
    (∀ dA dB : ScopeData, ∀ sA sB : CallSpec,
      dA.isGroup = false → dB.isGroup = false →
      dA.hasTeardown = true → dB.hasTeardown = true →
      dA.teardown = some sA → dB.teardown = some sB →
      ¬(getStatus st dA.sid = JobScopeStatus.unknown ∨
        getStatus st dA.sid = JobScopeStatus.skipped) →
      ¬(getStatus st dB.sid = JobScopeStatus.unknown ∨
        getStatus st dB.sid = JobScopeStatus.skipped) →
      tdCallsOf ((runGroupTeardownList st o [.node dA [], .node dB []]).trace) =
        tdCallsOf st.trace ++ [(o.sid, dB.sid), (o.sid, dA.sid)]) := by
  refine ⟨runGroupTeardownList_eq st o cs, ?_, ?_, ?_⟩
  · intro hall
    rw [runGroupTeardownList_eq]
    rw [show ({ st with trace := st.trace ++ walkTraceStList st.statuses o cs } :
      RunState).trace = st.trace ++ walkTraceStList st.statuses o cs from rfl,
      tdCallsOf_append, walkTraceStList_ran st.statuses o cs hall,
      tdCallsOf_walkTraceList]
  · intro hnd t ht
    exact countOf_eq_one_of_nodup_mem (walkTdIds_nodup cs hnd) ht
  · intro dA dB sA sB hgA hgB htA htB hsA hsB hrA hrB
    have hall : ∀ i ∈ scopeIdsList [Scope.node dA [], Scope.node dB []],
        ¬(getStatus st i = JobScopeStatus.unknown ∨
          getStatus st i = JobScopeStatus.skipped) := by
      intro i hi
      have hor : i = dA.sid ∨ i = dB.sid := by
        simpa [scopeIdsList, scopeIds] using hi
      rcases hor with h | h
      · exact h ▸ hrA
      · exact h ▸ hrB
    have htr : (runGroupTeardownList st o [Scope.node dA [], Scope.node dB []]).trace =
        st.trace ++ walkTraceStList st.statuses o [Scope.node dA [], Scope.node dB []] := by
      rw [runGroupTeardownList_eq]
    rw [htr, tdCallsOf_append, walkTraceStList_ran st.statuses o _ hall,
      tdCallsOf_walkTraceList]
    congr 1
    simp [walkTdIds, walkTdChild, hgA, hgB, htA, htB, hsA, hsB]

/-- C7 witness: for ran children `[A(id 1), B(id 2)]` under owner id 0 the
walk invokes `(0, 2)` then `(0, 1)`. -/
theorem claim_C7_witness :
    tdCallsOf ((runGroupTeardownList
      (⟨[], [], [(1, JobScopeStatus.passed), (2, JobScopeStatus.failed)], [], []⟩ : RunState)
      ⟨0, "g", "Stage", true, false, none, false, none, false, none, none⟩
      [.node ⟨1, "a", "Step", false, true, some .ok, true, some .ok, false, none, none⟩ [],
       .node ⟨2, "b", "Step", false, true, some .ok, true, some .ok, false, none, none⟩ []]).trace)
      = [(0, 2), (0, 1)] := by
  have h := (claim_C7
    (⟨[], [], [(1, JobScopeStatus.passed), (2, JobScopeStatus.failed)], [], []⟩ : RunState)
    ⟨0, "g", "Stage", true, false, none, false, none, false, none, none⟩
    []).2.2.2
    ⟨1, "a", "Step", false, true, some .ok, true, some .ok, false, none, none⟩
    ⟨2, "b", "Step", false, true, some .ok, true, some .ok, false, none, none⟩
    .ok .ok rfl rfl rfl rfl rfl rfl (by decide) (by decide)
  simpa [tdCallsOf] using h

/-- C9: an exception raised by a teardown callable is contained:
`_run_teardown` returns normally having appended only the section events,
the invocation, and a *warning* — the recorded errors are untouched (so the
failure is never part of the final pass/fail aggregate, which `run` builds
from `get_errors()`), and a failing teardown does not prevent the
remaining sibling teardowns in a group walk from being invoked. -/
theorem claim_C9 (st : RunState) (o td : ScopeData) (m : String)
    (htd : td.teardown = some (.fail m))
    (hran : ¬(getStatus st td.sid = JobScopeStatus.unknown ∨
      getStatus st td.sid = JobScopeStatus.skipped)) :
    runTeardownOp st o td = { st with trace := st.trace ++
      [.sectionStart o.sid td.sid, .teardownCall o.sid td.sid, .warningMsg m,
        .sectionFinish] } ∧
    (runTeardownOp st o td).errors = st.errors ∧
    (∀ sel, getErrorsFor (runTeardownOp st o td) sel = getErrorsFor st sel) ∧
    (∀ dA : ScopeData, ∀ sA : CallSpec,
      dA.isGroup = false → dA.hasTeardown = true → dA.teardown = some sA →
      td.isGroup = false → td.hasTeardown = true →
      ¬(getStatus st dA.sid = JobScopeStatus.unknown ∨
        getStatus st dA.sid = JobScopeStatus.skipped) →
      tdCallsOf ((runGroupTeardownList st o [.node dA [], .node td []]).trace) =
        tdCallsOf st.trace ++ [(o.sid, td.sid), (o.sid, dA.sid)]) := by
  have h1 : runTeardownOp st o td = { st with trace := st.trace ++
      [.sectionStart o.sid td.sid, .teardownCall o.sid td.sid, .warningMsg m,
        .sectionFinish] } := by
    rw [runTeardownOp_eq, tdOpTraceSt_ran _ _ _ hran, tdOpTrace, htd]
  refine ⟨h1, by rw [h1], ?_, ?_⟩
  · intro sel
    rw [h1]
    rfl
  · intro dA sA hgA htA hsA hgT htT hrA
    have hall : ∀ i ∈ scopeIdsList [Scope.node dA [], Scope.node td []],
        ¬(getStatus st i = JobScopeStatus.unknown ∨
          getStatus st i = JobScopeStatus.skipped) := by
      intro i hi
      have hor : i = dA.sid ∨ i = td.sid := by
        simpa [scopeIdsList, scopeIds] using hi
      rcases hor with h | h
      · exact h ▸ hrA
      · exact h ▸ hran
    have htr : (runGroupTeardownList st o [Scope.node dA [], Scope.node td []]).trace =
        st.trace ++ walkTraceStList st.statuses o [Scope.node dA [], Scope.node td []] := by
      rw [runGroupTeardownList_eq]
    rw [htr, tdCallsOf_append, walkTraceStList_ran st.statuses o _ hall,
      tdCallsOf_walkTraceList]
    congr 1
    simp [walkTdIds, walkTdChild, hgA, hgT, htA, htT, hsA, htd]

/-- C9 witness: a failing teardown appends only section, call and warning
events and leaves the recorded errors (hence the aggregate) unchanged. -/
theorem claim_C9_witness :
    runTeardownOp (⟨[], [], [(7, JobScopeStatus.running)], [([0], ["old"])], []⟩ : RunState)
      ⟨0, "g", "Job", true, false, none, false, none, false, none, none⟩
      ⟨7, "s", "Step", false, false, none, true, some (.fail "td-bad"), false, none, none⟩ =
      { (⟨[], [], [(7, JobScopeStatus.running)], [([0], ["old"])], []⟩ : RunState) with
        trace := [] ++ [.sectionStart 0 7, .teardownCall 0 7, .warningMsg "td-bad",
          .sectionFinish] } ∧
    getErrorsFor (runTeardownOp
      (⟨[], [], [(7, JobScopeStatus.running)], [([0], ["old"])], []⟩ : RunState)
      ⟨0, "g", "Job", true, false, none, false, none, false, none, none⟩
      ⟨7, "s", "Step", false, false, none, true, some (.fail "td-bad"), false, none, none⟩)
      none = ["old"] := by
  have h := claim_C9
    (⟨[], [], [(7, JobScopeStatus.running)], [([0], ["old"])], []⟩ : RunState)
    ⟨0, "g", "Job", true, false, none, false, none, false, none, none⟩
    ⟨7, "s", "Step", false, false, none, true, some (.fail "td-bad"), false, none, none⟩
    "td-bad" rfl (by decide)
  exact ⟨h.1, (h.2.2.1 none).trans (by decide)⟩

/-- C1 counterexample: in the tree `G(0)[S(1), B(2)]` where every scope has
the conditional capability but none has `run_if` or `skip_if` set, S's
action raises — and sibling B does *not* execute: the default condition
`job_failing` skips it (status SKIPPED, no start/action events), contrary
to the claim that every sibling still executes. -/
theorem claim_C1_counterexample :
    Event.actionCall 1 ∈ (runScope initState
      (.node ⟨0, "g", "Job", true, false, none, false, none, true, none, none⟩
        [.node ⟨1, "s", "Step", false, true, some (.fail "boom"), false, none, true,
          none, none⟩ [],
         .node ⟨2, "b", "Step", false, true, some .ok, false, none, true,
          none, none⟩ []])).1.trace ∧
    Event.actionCall 2 ∉ (runScope initState
      (.node ⟨0, "g", "Job", true, false, none, false, none, true, none, none⟩
        [.node ⟨1, "s", "Step", false, true, some (.fail "boom"), false, none, true,
          none, none⟩ [],
         .node ⟨2, "b", "Step", false, true, some .ok, false, none, true,
          none, none⟩ []])).1.trace ∧
    Event.startScope 2 ∉ (runScope initState
      (.node ⟨0, "g", "Job", true, false, none, false, none, true, none, none⟩
        [.node ⟨1, "s", "Step", false, true, some (.fail "boom"), false, none, true,
          none, none⟩ [],
         .node ⟨2, "b", "Step", false, true, some .ok, false, none, true,
          none, none⟩ []])).1.trace ∧
    getStatus (runScope initState
      (.node ⟨0, "g", "Job", true, false, none, false, none, true, none, none⟩
        [.node ⟨1, "s", "Step", false, true, some (.fail "boom"), false, none, true,
          none, none⟩ [],
         .node ⟨2, "b", "Step", false, true, some .ok, false, none, true,
          none, none⟩ []])).1 2 = JobScopeStatus.skipped ∧
    Event.skipScope 2 (some "Job has failures.") ∈ (runScope initState
      (.node ⟨0, "g", "Job", true, false, none, false, none, true, none, none⟩
        [.node ⟨1, "s", "Step", false, true, some (.fail "boom"), false, none, true,
          none, none⟩ [],
         .node ⟨2, "b", "Step", false, true, some .ok, false, none, true,
          none, none⟩ []])).1.trace := by
  refine ⟨?_, ?_, ?_, ?_, ?_⟩ <;> decide

/-- C1 (amended): for every scope tree in which no scope has the
*conditional capability* at all (so the default `job_failing` condition
never applies), if an action raises an error in some scope S of group G,
then every sibling of S is still entered exactly once, every sibling with
an action still has it invoked exactly once, and every group's (hence
every ancestor of S's) teardown walk invokes each of its teardown-capable
descendants exactly once over the whole run. -/
theorem claim_C1 (t : Scope) (dG dS : ScopeData) (csG csS : List Scope) (m : String)
    (hwf : wfLeaves t = true) (hnc : noCond t = true) (hcap : allCap t = true)
    (hnd : (scopeIds t).Nodup)
    (hG : Scope.node dG csG ∈ subscopes t) (hGg : dG.isGroup = true)
    (hS : Scope.node dS csS ∈ csG) (hSa : dS.action = some (.fail m)) :
    ∃ st', runScope initState t = (st', none) ∧ st'.trace = scopeTrace t ∧
      (∀ dB : ScopeData, ∀ csB : List Scope, Scope.node dB csB ∈ csG →
        countOf (Event.startScope dB.sid) st'.trace = 1 ∧
        (dB.isGroup = false → dB.hasAction = true →
          (∃ spec, dB.action = some spec) →
          countOf (Event.actionCall dB.sid) st'.trace = 1)) ∧
      (∀ dA : ScopeData, ∀ csA : List Scope, Scope.node dA csA ∈ subscopes t →
        dA.isGroup = true → ∀ x ∈ walkTdIds csA,
        countOf (Event.teardownCall dA.sid x) st'.trace = 1) := by
  obtain ⟨st', heq, _, _, htr, _, _⟩ :=
    runScope_trace t initState hcap hnc hwf hnd (fun i _ => rfl)
  have htr' : st'.trace = scopeTrace t := by simpa [initState] using htr
  refine ⟨st', heq, htr', ?_, ?_⟩
  · intro dB csB hB
    have hBsub : Scope.node dB csB ∈ subscopes t := by
      refine subscopes_trans t _ hG _ ?_
      rw [subscopes]
      exact List.mem_cons_of_mem _ (mem_subscopesList_of_mem csG _ hB)
    constructor
    · rw [htr', countStart_scopeTrace t dB.sid hwf]
      exact countOf_eq_one_of_nodup_mem hnd
        (subscopes_scopeIds_subset t _ hBsub dB.sid (sid_mem_scopeIds dB csB))
    · intro hBg hBa hspec
      obtain ⟨spec, hBact⟩ := hspec
      rw [htr', countAct_scopeTrace t dB.sid hwf]
      refine countOf_eq_one_of_nodup_mem ((actionIds_sublist t).nodup hnd) ?_
      refine subscopes_actionIds_subset t hwf _ hBsub dB.sid ?_
      simp [actionIds, hBg, hBa, hBact]
  · intro dA csA hA hAg x hx
    rw [htr', countTd_scopeTrace t dA.sid x hwf]
    refine countOf_eq_one_of_nodup_mem (tdPairs_nodup t hnd) ?_
    refine subscopes_tdPairs_subset t hwf _ hA (dA.sid, x) ?_
    rw [tdPairs, if_pos hAg]
    exact List.mem_append.mpr (Or.inr (List.mem_map.mpr ⟨x, hx, rfl⟩))

/-- C1 witness: the condition-free tree `G(0)[S(1) failing, B(2)]`. -/
theorem claim_C1_witness :
    ∃ st', runScope initState
      (.node ⟨0, "g", "Job", true, false, none, false, none, false, none, none⟩
        [.node ⟨1, "s", "Step", false, true, some (.fail "boom"), true, some .ok,
          false, none, none⟩ [],
         .node ⟨2, "b", "Step", false, true, some .ok, true, some .ok,
          false, none, none⟩ []]) = (st', none) ∧
      st'.trace = scopeTrace
        (.node ⟨0, "g", "Job", true, false, none, false, none, false, none, none⟩
          [.node ⟨1, "s", "Step", false, true, some (.fail "boom"), true, some .ok,
            false, none, none⟩ [],
           .node ⟨2, "b", "Step", false, true, some .ok, true, some .ok,
            false, none, none⟩ []]) ∧
      (∀ dB : ScopeData, ∀ csB : List Scope, Scope.node dB csB ∈
          [Scope.node ⟨1, "s", "Step", false, true, some (.fail "boom"), true, some .ok,
            false, none, none⟩ [],
           Scope.node ⟨2, "b", "Step", false, true, some .ok, true, some .ok,
            false, none, none⟩ [] ] →
        countOf (Event.startScope dB.sid) st'.trace = 1 ∧
        (dB.isGroup = false → dB.hasAction = true →
          (∃ spec, dB.action = some spec) →
          countOf (Event.actionCall dB.sid) st'.trace = 1)) ∧
      (∀ dA : ScopeData, ∀ csA : List Scope, Scope.node dA csA ∈ subscopes
          (.node ⟨0, "g", "Job", true, false, none, false, none, false, none, none⟩
            [.node ⟨1, "s", "Step", false, true, some (.fail "boom"), true, some .ok,
              false, none, none⟩ [],
             .node ⟨2, "b", "Step", false, true, some .ok, true, some .ok,
              false, none, none⟩ []]) →
        dA.isGroup = true → ∀ x ∈ walkTdIds csA,
        countOf (Event.teardownCall dA.sid x) st'.trace = 1) :=
  claim_C1
    (.node ⟨0, "g", "Job", true, false, none, false, none, false, none, none⟩
      [.node ⟨1, "s", "Step", false, true, some (.fail "boom"), true, some .ok,
        false, none, none⟩ [],
       .node ⟨2, "b", "Step", false, true, some .ok, true, some .ok,
        false, none, none⟩ []])
    ⟨0, "g", "Job", true, false, none, false, none, false, none, none⟩
    ⟨1, "s", "Step", false, true, some (.fail "boom"), true, some .ok, false, none, none⟩
    [.node ⟨1, "s", "Step", false, true, some (.fail "boom"), true, some .ok,
      false, none, none⟩ [],
     .node ⟨2, "b", "Step", false, true, some .ok, true, some .ok,
      false, none, none⟩ []]
    [] "boom" (by decide) (by decide) (by decide) (by decide)
    (subscopes_self _) rfl (List.mem_cons_self _ _) rfl

/-- C4: on a structurally well-formed tree (distinct ids, every scope has a
capability) `JobRunnerImpl.run` never raises mid-run: the whole tree,
including all teardown, executes to completion (its final state `st'` is
exactly `_run_scope`'s final state), and `run` then raises exactly one
exception — whose message is the newline-join of all recorded errors — if
and only if at least one error was recorded; otherwise it returns
normally. -/
theorem claim_C4 (t : Scope) (hcap : allCap t = true) (hnd : (scopeIds t).Nodup) :
    ∃ st', runScope initState t = (st', none) ∧
      runJob initState t = (st',
        if (getErrorsFor st' none).isEmpty then none
        else some (String.intercalate "\n" (getErrorsFor st' none))) ∧
      ((runJob initState t).2 = none ↔ getErrorsFor st' none = []) ∧
      (runJob initState t).1 = st' := by
  obtain ⟨st', heq, _, _, _⟩ := runScope_wf t initState hcap hnd (fun i _ => rfl)
  have hrj : runJob initState t = (st',
      if (getErrorsFor st' none).isEmpty then none
      else some (String.intercalate "\n" (getErrorsFor st' none))) := by
    unfold runJob
    simp only [heq]
    by_cases he : (getErrorsFor st' none).isEmpty = true
    · rw [if_pos he, if_pos he]
    · rw [if_neg he, if_neg he]
  refine ⟨st', heq, hrj, ?_, by rw [hrj]⟩
  rw [hrj]
  by_cases he : (getErrorsFor st' none).isEmpty = true
  · simp [he, List.isEmpty_iff.mp he]
  · have hne : getErrorsFor st' none ≠ [] := fun hh => he (List.isEmpty_iff.mpr hh)
    simp [he, hne]

/-- C4 witness: a one-node failing tree — the run completes and the single
aggregate exception carries the error's string form. -/
theorem claim_C4_witness :
    (∃ st', runScope initState
      (.node ⟨1, "s", "Step", false, true, some (.fail "boom"), false, none,
        false, none, none⟩ []) = (st', none) ∧
      runJob initState
        (.node ⟨1, "s", "Step", false, true, some (.fail "boom"), false, none,
          false, none, none⟩ []) = (st',
        if (getErrorsFor st' none).isEmpty then none
        else some (String.intercalate "\n" (getErrorsFor st' none))) ∧
      ((runJob initState
        (.node ⟨1, "s", "Step", false, true, some (.fail "boom"), false, none,
          false, none, none⟩ [])).2 = none ↔ getErrorsFor st' none = []) ∧
      (runJob initState
        (.node ⟨1, "s", "Step", false, true, some (.fail "boom"), false, none,
          false, none, none⟩ [])).1 = st') ∧
    (runJob initState
      (.node ⟨1, "s", "Step", false, true, some (.fail "boom"), false, none,
        false, none, none⟩ [])).2 = some "boom" :=
  ⟨claim_C4
    (.node ⟨1, "s", "Step", false, true, some (.fail "boom"), false, none,
      false, none, none⟩ []) (by decide) (by decide), by decide⟩

end Rkojob
